import Mathlib

/-!
Shallow embedding of the constant-folding / dead-code-elimination core of the
repository excerpt (the ECMAScript transform utilities in
`src/ecmascript/transforms/src/util.rs` and the `Remover` pass in
`src/ecmascript/transforms/src/optimization/simplify/dce/mod.rs`).

Modelling conventions, used uniformly below:
* Rust `f64` values are modelled by `JsNum` (NaN, the infinities, and exact
  rationals); the claims under study only exercise exact values.
* Rust panics (`unwrap`, `unreachable!`, `unimplemented!`, out-of-bounds byte
  slicing) are modelled by `Option`-valued functions returning `none`; a
  source function that "returns `None`" is modelled as `some none`.
* Spans, syntax contexts and source positions carry no behaviour in the
  functions under study and are dropped; AST node fields that none of the
  embedded functions inspect (e.g. regex text, class bodies, arrow-function
  bodies, function parameter lists) are dropped or kept opaque, which is noted
  at each declaration.
* AST lists are represented by bespoke list types inside the mutual inductive
  block so that all functions are structurally recursive (hence compute by
  `rfl`/`decide`).
-/

set_option maxHeartbeats 2000000

namespace Swc

/-- Model of the Rust `f64` values manipulated by the engine: NaN, the two
infinities, and finite values as exact rationals. -/
inductive JsNum where
  | nan
  | inf
  | neginf
  | val (q : ℚ)
  deriving DecidableEq

/-- The two-case value lattice from `util/value.rs` (declared in the excerpt's
re-exports; the module body is not part of the excerpt). Modelled from the
spec: `Value<T>` is `Unknown` or `Known(T)`. -/
inductive Value (α : Type) where
  | known (a : α)
  | unknown
  deriving DecidableEq

/-- `Purity` from `util.rs` (lines 884-896). -/
inductive Purity where
  | mayBeImpure
  | pure
  deriving DecidableEq

/-- `impl Add for Purity` (util.rs lines 898-906): `Pure` only if both `Pure`. -/
def Purity.add : Purity → Purity → Purity
  | .pure, .pure => .pure
  | _, _ => .mayBeImpure

instance : Add Purity := ⟨Purity.add⟩

/-- `BoolValue = Value<bool>` (util.rs line 161). -/
abbrev BoolValue := Value Bool

/-- Modelled from the spec: logical NOT on the lattice "inverts the pair
(purity unchanged, value negated if known)" (§4.1); the `Not` impl lives in
the absent `util/value.rs`. -/
def BoolValue.not : BoolValue → BoolValue
  | .known b => .known (!b)
  | .unknown => .unknown

/-- Modelled from the spec: `Value<bool>` conjunction, "combining
possibly-unknown operands with the same boolean operator" (§4.1); the impl
lives in the absent `util/value.rs`. Three-valued: a known `false` forces
`false`, two known `true`s give `true`, anything else is unknown. -/
def BoolValue.and : BoolValue → BoolValue → BoolValue
  | .known false, _ => .known false
  | _, .known false => .known false
  | .known true, .known true => .known true
  | _, _ => .unknown

/-- Modelled from the spec: `Value<bool>` disjunction, dual to
`BoolValue.and`; the impl lives in the absent `util/value.rs`. -/
def BoolValue.or : BoolValue → BoolValue → BoolValue
  | .known true, _ => .known true
  | _, .known true => .known true
  | .known false, .known false => .known false
  | _, _ => .unknown

/-- Unary operators (`ast` crate `UnaryOp`). -/
inductive UnaryOp where
  | minus | plus | bang | tilde | typeofOp | voidOp | deleteOp
  deriving DecidableEq

/-- Binary operators (`ast` crate `BinaryOp`). -/
inductive BinOp where
  | eqEq | notEq | eqEqEq | notEqEq | lt | le | gt | ge
  | lshift | rshift | zrshift
  | add | sub | mul | div | modOp | exp
  | bitOr | bitXor | bitAnd
  | logOr | logAnd
  | inOp | instanceOfOp
  deriving DecidableEq

/-- Assignment operators; only `=` versus compound matters to the embedded
functions, and none of them inspects it, so the exact compound kind is
collapsed. -/
inductive AssignOp where
  | assignEq
  | assignOther
  deriving DecidableEq

/-- Update operators. -/
inductive UpdateOp where
  | inc | dec
  deriving DecidableEq

/-- Variable declaration kind. -/
inductive VarDeclKind where
  | varKind | letKind | constKind
  deriving DecidableEq

/-- Literals (`ast` crate `Lit`). Regex text/flags are dropped (no embedded
function reads them); a bigint is carried as its integer value, `as_bool`
re-derives its decimal string. -/
inductive Lit where
  | num (value : JsNum)
  | str (value : String)
  | bool (value : Bool)
  | null
  | regex
  | bigint (value : ℤ)
  | jsxText
  deriving DecidableEq

mutual

/-- Expressions (`ast` crate `Expr`), one constructor per source variant that
the embedded functions distinguish. Scope-model notes: `fn` keeps only the
optional body statement list (what `is_pure_callee` and the folds read);
`arrow`, `class_`, `metaProp` and the JSX variants are opaque leaves because
every embedded function either treats them atomically or panics on them. -/
inductive Expr where
  | this
  | array (elems : OESList)
  | object (props : PropsList)
  | fn (body : Option StmtList)
  | unary (op : UnaryOp) (arg : Expr)
  | update (op : UpdateOp) (isPre : Bool) (arg : Expr)
  | bin (op : BinOp) (left : Expr) (right : Expr)
  | assign (op : AssignOp) (left : PatOrExpr) (right : Expr)
  | member (obj : ExprOrSuper) (prop : Expr) (computed : Bool)
  | cond (test : Expr) (cons : Expr) (alt : Expr)
  | call (callee : ExprOrSuper) (args : ESList)
  | newE (callee : Expr) (args : Option ESList)
  | seq (exprs : ExprList)
  | ident (sym : String)
  | lit (l : Lit)
  | tpl (exprs : ExprList)
  | taggedTpl (tag : Expr) (exprs : ExprList)
  | arrow
  | class_
  | yieldE (arg : Option Expr)
  | metaProp
  | awaitE (arg : Expr)
  | paren (expr : Expr)
  | jsxMember
  | jsxNamespacedName
  | jsxEmpty
  | jsxElement
  | jsxFragment
  | tsTypeAssertion (expr : Expr)
  | tsConstAssertion (expr : Expr)
  | tsNonNull (expr : Expr)
  | tsTypeCast (expr : Expr)
  | tsAs (expr : Expr)
  | tsOptChain (expr : Expr)
  | privateName (sym : String)
  | invalid

/-- `ExprOrSpread`: an argument / array element, with its spread flag. -/
inductive ExprOrSpread where
  | mk (spread : Bool) (expr : Expr)

/-- `ExprOrSuper`. -/
inductive ExprOrSuper where
  | exprOS (e : Expr)
  | superOS

/-- Object literal member (`PropOrSpread`). -/
inductive PropOrSpread where
  | prop (p : JsProp)
  | spreadProp (expr : Expr)

/-- Object literal property (`Prop`). Getter/setter/method bodies are opaque:
no embedded function looks past the property kind and its (computed) key. -/
inductive JsProp where
  | shorthand (sym : String)
  | keyValue (key : PropName) (value : Expr)
  | assignProp (sym : String) (value : Expr)
  | getter (key : PropName)
  | setter (key : PropName)
  | method (key : PropName)

/-- Property name. -/
inductive PropName where
  | ident (sym : String)
  | str (s : String)
  | num (n : JsNum)
  | computed (expr : Expr)

/-- Patterns (`ast` crate `Pat`). -/
inductive Pat where
  | ident (sym : String)
  | array (elems : OptPatList)
  | rest (arg : Pat)
  | object (props : OPPList)
  | assign (left : Pat) (right : Expr)
  | expr (e : Expr)
  | invalid

/-- `ObjectPatProp`. -/
inductive ObjectPatProp where
  | keyValue (key : PropName) (value : Pat)
  | assign (keySym : String) (value : Option Expr)
  | rest (arg : Pat)

/-- `PatOrExpr` (assignment target). -/
inductive PatOrExpr where
  | pat (p : Pat)
  | expr (e : Expr)

/-- Statements (`ast` crate `Stmt`). `Decl` kinds other than `Var`/`Fn` are
collapsed into `declClass`/`declOther` leaves (the folds pass them through
and no embedded function reads their contents). -/
inductive Stmt where
  | block (stmts : StmtList)
  | empty
  | debugger
  | withS (obj : Expr) (body : Stmt)
  | ret (arg : Option Expr)
  | labeled (label : String) (body : Stmt)
  | brk (label : Option String)
  | cont (label : Option String)
  | ifS (test : Expr) (cons : Stmt) (alt : Option Stmt)
  | switchS (disc : Expr) (cases : CaseList)
  | throwS (arg : Expr)
  | tryS (block : StmtList) (handler : Option CatchClause) (finalizer : Option StmtList)
  | whileS (test : Expr) (body : Stmt)
  | doWhile (test : Expr) (body : Stmt)
  | forS (init : Option VarDeclOrExpr) (test : Option Expr) (update : Option Expr) (body : Stmt)
  | forIn (left : VarDeclOrPat) (right : Expr) (body : Stmt)
  | forOf (left : VarDeclOrPat) (right : Expr) (body : Stmt)
  | declVar (kind : VarDeclKind) (decls : DeclList)
  | declFn (name : String) (body : Option StmtList)
  | declClass (name : String)
  | declOther
  | exprS (expr : Expr)

/-- A single `VarDeclarator`. -/
inductive VarDeclarator where
  | mk (name : Pat) (init : Option Expr)

/-- A `switch` case. -/
inductive SwitchCase where
  | mk (test : Option Expr) (cons : StmtList)

/-- A `catch` clause. -/
inductive CatchClause where
  | mk (param : Pat) (body : StmtList)

/-- `for` initializer. -/
inductive VarDeclOrExpr where
  | varD (kind : VarDeclKind) (decls : DeclList)
  | expr (e : Expr)

/-- `for-in`/`for-of` left-hand side. -/
inductive VarDeclOrPat where
  | varD (kind : VarDeclKind) (decls : DeclList)
  | pat (p : Pat)

/-- List of expressions. -/
inductive ExprList where
  | nil
  | cons (head : Expr) (tail : ExprList)

/-- List of `Option ExprOrSpread` (array literal elements; `none` is an
elision). -/
inductive OESList where
  | nil
  | cons (head : Option ExprOrSpread) (tail : OESList)

/-- List of `ExprOrSpread` (call / `new` arguments). -/
inductive ESList where
  | nil
  | cons (head : ExprOrSpread) (tail : ESList)

/-- List of object literal members. -/
inductive PropsList where
  | nil
  | cons (head : PropOrSpread) (tail : PropsList)

/-- List of statements. -/
inductive StmtList where
  | nil
  | cons (head : Stmt) (tail : StmtList)

/-- List of optional patterns (array pattern elements). -/
inductive OptPatList where
  | nil
  | cons (head : Option Pat) (tail : OptPatList)

/-- List of object pattern properties. -/
inductive OPPList where
  | nil
  | cons (head : ObjectPatProp) (tail : OPPList)

/-- List of variable declarators. -/
inductive DeclList where
  | nil
  | cons (head : VarDeclarator) (tail : DeclList)

/-- List of switch cases. -/
inductive CaseList where
  | nil
  | cons (head : SwitchCase) (tail : CaseList)

end

/-- Spread flag of an `ExprOrSpread`. -/
def ExprOrSpread.spread : ExprOrSpread → Bool
  | .mk s _ => s

/-- Expression of an `ExprOrSpread`. -/
def ExprOrSpread.expr : ExprOrSpread → Expr
  | .mk _ e => e

/-- Append on expression lists. -/
def ExprList.append : ExprList → ExprList → ExprList
  | .nil, ys => ys
  | .cons x xs, ys => .cons x (xs.append ys)

/-- Append on statement lists. -/
def StmtList.append : StmtList → StmtList → StmtList
  | .nil, ys => ys
  | .cons x xs, ys => .cons x (xs.append ys)

/-- `ExprExt::is_ident_ref_to` (util.rs lines 296-302). -/
def is_ident_ref_to (e : Expr) (id : String) : Bool :=
  match e with
  | .ident sym => sym = id
  | _ => false

/-- `ExprExt::is_undefined` (util.rs lines 283-285). -/
def is_undefined (e : Expr) : Bool :=
  is_ident_ref_to e "undefined"

/-- `IsEmpty for BlockStmt`-style emptiness of a statement list. -/
def StmtList.isEmptyL : StmtList → Bool
  | .nil => true
  | .cons _ _ => false

/-- `IsEmpty for Stmt` (util.rs lines 177-185): empty statement, or block of
no statements. -/
def Stmt.is_empty : Stmt → Bool
  | .empty => true
  | .block b => b.isEmptyL
  | _ => false

/-- `IsEmpty for Option<T>` over statements (util.rs lines 187-194). -/
def optStmtIsEmpty : Option Stmt → Bool
  | some s => s.is_empty
  | none => true

/-- `IsEmpty for CatchClause` (util.rs lines 172-176) lifted to the optional
handler. -/
def optCatchIsEmpty : Option CatchClause → Bool
  | some (.mk _ body) => body.isEmptyL
  | none => true

/-- `IsEmpty` for the optional finalizer block. -/
def optBlockIsEmpty : Option StmtList → Bool
  | some b => b.isEmptyL
  | none => true

/-- `IsEmpty` for the optional `new` argument vector (`Option<Vec<_>>`). -/
def optArgsIsEmpty : Option ESList → Bool
  | none => true
  | some .nil => true
  | some (.cons _ _) => false

/-- `ExprExt::is_pure_callee` (util.rs lines 700-722): an identifier reference
to `Date`, a member expression whose object is an identifier reference to
`Math`, or a function expression with an empty body. -/
def is_pure_callee (e : Expr) : Bool :=
  if is_ident_ref_to e "Date" then true
  else
    match e with
    | .member (.exprOS obj) _ _ => is_ident_ref_to obj "Math"
    | .fn (some .nil) => true
    | _ => false

mutual

/-- `ExprExt::may_have_side_effects` (util.rs lines 724-817). The
`unreachable!` panics on the JSX variants and `Invalid` are modelled as
`none`. -/
def may_have_side_effects (e : Expr) : Option Bool :=
  if is_pure_callee e then some false
  else
    match e with
    | .lit _ => some false
    | .ident _ => some false
    | .this => some false
    | .privateName _ => some false
    | .tsConstAssertion _ => some false
    | .paren inner => may_have_side_effects inner
    | .fn _ => some false
    | .arrow => some false
    | .class_ => some true
    | .array elems => mhse_elems elems
    | .unary _ arg => may_have_side_effects arg
    | .bin _ l r => do
        let lb ← may_have_side_effects l
        if lb then some true else may_have_side_effects r
    | .tpl _ => some true
    | .taggedTpl _ _ => some true
    | .metaProp => some true
    | .awaitE _ => some true
    | .yieldE _ => some true
    | .member _ _ _ => some true
    | .update _ _ _ => some true
    | .assign _ _ _ => some true
    | .newE _ _ => some true
    | .call (.exprOS callee) _ => if is_pure_callee callee then some false else some true
    | .call .superOS _ => some true
    | .seq exprs => mhse_list exprs
    | .cond t c a => do
        let tb ← may_have_side_effects t
        if tb then some true
        else do
          let cb ← may_have_side_effects c
          if cb then some true else may_have_side_effects a
    | .object props => mhse_props props
    | .jsxMember | .jsxNamespacedName | .jsxEmpty | .jsxElement | .jsxFragment => none
    | .tsAs inner | .tsNonNull inner | .tsTypeAssertion inner | .tsTypeCast inner =>
        may_have_side_effects inner
    | .tsOptChain inner => may_have_side_effects inner
    | .invalid => none

/-- The array case of `may_have_side_effects`: `iter().filter_map(as_ref)
.any(..)` — elisions skipped, short-circuiting left to right. -/
def mhse_elems : OESList → Option Bool
  | .nil => some false
  | .cons none rest => mhse_elems rest
  | .cons (some (.mk _ ex)) rest => do
      let b ← may_have_side_effects ex
      if b then some true else mhse_elems rest

/-- The sequence case of `may_have_side_effects`: `exprs.iter().any(..)`. -/
def mhse_list : ExprList → Option Bool
  | .nil => some false
  | .cons e rest => do
      let b ← may_have_side_effects e
      if b then some true else mhse_list rest

/-- The object-literal case of `may_have_side_effects`: `props.iter()
.any(..)`. -/
def mhse_props : PropsList → Option Bool
  | .nil => some false
  | .cons p rest => do
      let b ← mhse_prop p
      if b then some true else mhse_props rest

/-- Per-property side-effect test of the object-literal case: shorthand
properties are pure, key/value properties check the computed key then the
value, everything else (`Prop::Getter/Setter/Method/Assign`) is impure, and a
spread checks its expression. -/
def mhse_prop : PropOrSpread → Option Bool
  | .prop (.shorthand _) => some false
  | .prop (.keyValue key value) => do
      let k ← mhse_key key
      if k then some true else may_have_side_effects value
  | .prop (.assignProp _ _) => some true
  | .prop (.getter _) => some true
  | .prop (.setter _) => some true
  | .prop (.method _) => some true
  | .spreadProp ex => may_have_side_effects ex

/-- Computed property keys may have effects, all other key forms are pure. -/
def mhse_key : PropName → Option Bool
  | .computed ex => may_have_side_effects ex
  | _ => some false

end

/-- Decimal-digit test used by the `BigInt` case of `as_bool` (util.rs lines
379-382): the source asks whether the bigint's decimal string contains a
digit `1`..=`9`. -/
def bigint_nonzero_digit (v : ℤ) : Bool :=
  (toString v).toList.any (fun c => decide ('1' ≤ c) && decide (c ≤ '9'))

/-- The literal table of `as_bool` (util.rs lines 371-390). `JSXText` panics
in the source; the caller returns `none` before consulting this table. -/
def lit_bool : Lit → Bool
  | .num n =>
      match n with
      | .nan => false
      | .val q => if q = 0 then false else true
      | .inf => true
      | .neginf => true
  | .bigint v => bigint_nonzero_digit v
  | .bool b => b
  | .str s => !s.toList.isEmpty
  | .null => false
  | .regex => true
  | .jsxText => false

/-- The common tail of `as_bool` (util.rs lines 396-400): attach purity
derived from `may_have_side_effects` to the computed value. -/
def as_bool_finish (e : Expr) (val : BoolValue) : Option (Purity × BoolValue) := do
  let b ← may_have_side_effects e
  if b then some (.mayBeImpure, val) else some (.pure, val)

mutual

/-- `ExprExt::as_bool` (util.rs lines 316-401). `none` models the panics
(`JSXText`, `last().unwrap()` on an empty sequence, and panic propagation
from `may_have_side_effects`). -/
def as_bool (e : Expr) : Option (Purity × BoolValue) :=
  if is_ident_ref_to e "undefined" then some (.pure, .known false)
  else
    match e with
    | .paren inner => as_bool inner
    | .seq exprs => as_bool_seq_last exprs
    | .assign _ _ right => as_bool right
    | .unary .bang arg => do
        let (p, v) ← as_bool arg
        some (p, v.not)
    | .bin op l r =>
        if op = .bitAnd ∨ op = .bitOr then do
          let (lp, lv) ← as_bool l
          let (rp, rv) ← as_bool r
          if lp + rp = Purity.pure then some (.pure, lv.and rv)
          else as_bool_finish e (if op = .bitAnd then lv.and rv else lv.or rv)
        else as_bool_finish e .unknown
    | .fn _ | .class_ | .newE _ _ | .array _ | .object _ => as_bool_finish e (.known true)
    | .unary .voidOp _ => as_bool_finish e (.known false)
    | .lit .jsxText => none
    | .lit l => some (.pure, .known (lit_bool l))
    | _ => as_bool_finish e .unknown

/-- The sequence case of `as_bool`: `exprs.last().unwrap().as_bool()`; the
`unwrap` panics on an empty list. -/
def as_bool_seq_last : ExprList → Option (Purity × BoolValue)
  | .nil => none
  | .cons e .nil => as_bool e
  | .cons _ rest => as_bool_seq_last rest

end

/-- `ExprExt::as_pure_bool` (util.rs lines 304-310). -/
def as_pure_bool (e : Expr) : Option BoolValue := do
  match ← as_bool e with
  | (.pure, .known b) => some (.known b)
  | _ => some .unknown

/-- All characters are decimal digits. -/
def all_digits (cs : List Char) : Bool :=
  cs.all fun c => decide ('0' ≤ c) && decide (c ≤ '9')

/-- Value of a decimal digit string. -/
def digits_to_nat (cs : List Char) : ℕ :=
  cs.foldl (fun a c => a * 10 + (c.toNat - '0'.toNat)) 0

/-- Split a character list at the first character satisfying `p`; the second
component is `none` when no such character occurs. -/
def split_on (p : Char → Bool) : List Char → List Char × Option (List Char)
  | [] => ([], none)
  | c :: rest =>
      if p c then ([], some rest)
      else
        let (a, b) := split_on p rest
        (c :: a, b)

/-- Negate when the sign flag is set. -/
def qsign (neg : Bool) (q : ℚ) : ℚ :=
  if neg then -q else q

/-- Model of Rust `<f64 as FromStr>::from_str` as used by `num_from_str`:
optional sign; case-insensitive `inf`/`infinity`/`nan`; otherwise a decimal
mantissa with optional fraction and optional exponent. The value is computed
exactly in `ℚ` (the claims only exercise values where `f64` rounding is the
identity). `none` models a parse error. -/
def rust_parse_f64 (cs : List Char) : Option JsNum :=
  let signRest : Bool × List Char :=
    match cs with
    | '+' :: r => (false, r)
    | '-' :: r => (true, r)
    | r => (false, r)
  let neg := signRest.1
  let rest := signRest.2
  let lower := rest.map Char.toLower
  if lower = "inf".toList ∨ lower = "infinity".toList then
    some (if neg then .neginf else .inf)
  else if lower = "nan".toList then some .nan
  else
    let mantExp := split_on (fun c => decide (c = 'e') || decide (c = 'E')) rest
    let intFrac := split_on (fun c => decide (c = '.')) mantExp.1
    let intPart := intFrac.1
    let fracPart := (intFrac.2).getD []
    if all_digits intPart ∧ all_digits fracPart ∧ (intPart ≠ [] ∨ fracPart ≠ []) then
      let mant : ℕ := digits_to_nat (intPart ++ fracPart)
      let scale : ℕ := fracPart.length
      -- the `scale = 0` case is mathematically the general formula at `x / 1`;
      -- it is split out so that integer inputs reduce definitionally
      let base : ℚ := if scale = 0 then (mant : ℚ) else (mant : ℚ) / 10 ^ scale
      match mantExp.2 with
      | none => some (.val (qsign neg base))
      | some ecs =>
          let esignRest : Bool × List Char :=
            match ecs with
            | '+' :: r => (false, r)
            | '-' :: r => (true, r)
            | r => (false, r)
          let edigits := esignRest.2
          if all_digits edigits ∧ edigits ≠ [] then
            let ev : ℕ := digits_to_nat edigits
            some (.val (qsign neg
              (if esignRest.1 then base / 10 ^ ev
               else if ev = 0 then base else base * 10 ^ ev)))
          else none
    else none

/-- Rust `str::trim` on a character list (leading and trailing whitespace
removed; Rust trims by `char::is_whitespace`, modelled by
`Char.isWhitespace`, which agrees on the ASCII inputs the claims use). -/
def trimL (cs : List Char) : List Char :=
  ((cs.dropWhile Char.isWhitespace).reverse.dropWhile Char.isWhitespace).reverse

/-- Does the string start with `0x` or `0X`? -/
def starts_hex : List Char → Bool
  | '0' :: 'x' :: _ => true
  | '0' :: 'X' :: _ => true
  | _ => false

/-- `num_from_str` (util.rs lines 836-870), on the string's characters. The
source indexes `s[2..4]` by bytes and panics when the trimmed string is
shorter than that; the panic is modelled by `none` (the claims only exercise
ASCII strings, where bytes and characters agree). -/
def num_from_str (s : String) : Option (Value JsNum) :=
  if s.toList.contains '\x0b' then some .unknown
  else
    let t := trimL s.toList
    if t.isEmpty then some (.known (.val 0))
    else if starts_hex t then
      if t.length < 4 then none
      else some (.known ((rust_parse_f64 ((t.drop 2).take 2)).getD .nan))
    else if (t.headD ' ' = '-' ∨ t.headD ' ' = '+') ∧ starts_hex (t.drop 1) then
      some .unknown
    else if t = "infinity".toList ∨ t = "+infinity".toList ∨ t = "-infinity".toList then
      some .unknown
    else some (.known ((rust_parse_f64 t).getD .nan))

/-- Display of an `ast` `Number` (`format!("{}", n)` with the standard `f64`
`Display`): exact integers print as integers, NaN and the infinities as Rust
prints them. Non-integral finite values are not exercised by any claim and
are approximated by a `num/den` rendering. -/
def num_to_string (n : JsNum) : String :=
  match n with
  | .nan => "NaN"
  | .inf => "inf"
  | .neginf => "-inf"
  | .val q =>
      if q.den = 1 then toString q.num
      else toString q.num ++ "/" ++ toString q.den

mutual

/-- `ExprExt::as_string` (util.rs lines 464-530). `none` models the
`unimplemented!` panic on template literals; `some .unknown` is the source's
`Unknown`, including the early `?` returns. -/
def as_string (e : Expr) : Option (Value String) :=
  match e with
  | .lit (.str s) => some (.known s)
  | .lit (.num n) => some (.known (num_to_string n))
  | .lit (.bool true) => some (.known "true")
  | .lit (.bool false) => some (.known "false")
  | .lit .null => some (.known "null")
  | .lit _ => some .unknown
  | .tpl _ => none
  | .ident sym =>
      if sym = "undefined" ∨ sym = "Infinity" ∨ sym = "NaN" then some (.known sym)
      else some .unknown
  | .unary .voidOp _ => some (.known "undefined")
  | .unary .bang arg => do
      match ← as_pure_bool arg with
      | .known b => some (.known (if b then "false" else "true"))
      | .unknown => some .unknown
  | .array elems => as_string_elems elems true ""
  | .object _ => some (.known "[object Object]")
  | _ => some .unknown

/-- The element loop of `as_string` for array literals, carrying the `first`
flag and the accumulated buffer exactly as the source does: the element text
is pushed first and a comma is appended after every element other than the
first. `null`, elisions and the `undefined` identifier render as the empty
string without recursing; an `Unknown` element makes the whole result
`Unknown` (the source's `?`). -/
def as_string_elems : OESList → Bool → String → Option (Value String)
  | .nil, _, buf => some (.known buf)
  | .cons elem rest, first, buf =>
      let step : Option (Value String) :=
        match elem with
        | none => some (.known "")
        | some (.mk _ ex) =>
            match ex with
            | .lit .null => some (.known "")
            | .ident sym => if sym = "undefined" then some (.known "") else as_string ex
            | _ => as_string ex
      match step with
      | none => none
      | some .unknown => some .unknown
      | some (.known s) =>
          as_string_elems rest false (buf ++ s ++ (if first then "" else ","))

end

/-- `ExprExt::as_number` (util.rs lines 403-462). -/
def as_number (e : Expr) : Option (Value JsNum) :=
  match e with
  | .lit (.bool true) => some (.known (.val 1))
  | .lit (.bool false) => some (.known (.val 0))
  | .lit .null => some (.known (.val 0))
  | .lit (.num n) => some (.known n)
  | .lit (.str s) => num_from_str s
  | .lit _ => some .unknown
  | .ident sym =>
      if sym = "undefined" ∨ sym = "NaN" then some (.known .nan)
      else if sym = "Infinity" then some (.known .inf)
      else some .unknown
  | .unary .minus (.ident "Infinity") => some (.known .neginf)
  | .unary .bang arg => do
      match ← as_bool arg with
      | (.pure, .known v) => some (.known (.val (if v then 0 else 1)))
      | _ => some .unknown
  | .unary .voidOp arg => do
      let b ← may_have_side_effects arg
      if b then some .unknown else some (.known .nan)
  | .tpl _ | .object _ | .array _ => do
      match ← as_string e with
      | .known s => num_from_str s
      | .unknown => some .unknown
  | _ => some .unknown

mutual

/-- `add_effects` (util.rs lines 1412-1502) in accumulator-free form: the
list of sub-expressions that `add_effects(v, e)` would push for `e`, in
order. `none` models the source's `unimplemented!`/`unreachable!` panics
(template literals, tagged templates, class expressions, JSX, `Prop::Assign`,
`Invalid`). -/
def add_effects_of (e : Expr) : Option ExprList :=
  match e with
  | .lit _ => some .nil
  | .this => some .nil
  | .fn _ => some .nil
  | .arrow => some .nil
  | .ident _ => some .nil
  | .privateName _ => some .nil
  | .update _ _ _ => some (.cons e .nil)
  | .assign _ _ _ => some (.cons e .nil)
  | .yieldE _ => some (.cons e .nil)
  | .awaitE _ => some (.cons e .nil)
  | .metaProp => some (.cons e .nil)
  | .call _ _ => some (.cons e .nil)
  | .newE (.ident sym) args =>
      if sym = "Date" ∧ optArgsIsEmpty args then some .nil else some (.cons e .nil)
  | .newE _ _ => some (.cons e .nil)
  | .member _ _ _ => some (.cons e .nil)
  | .cond _ _ _ => some (.cons e .nil)
  | .unary _ arg => add_effects_of arg
  | .bin _ l r => do
      let a ← add_effects_of l
      let b ← add_effects_of r
      some (a.append b)
  | .seq exprs => add_effects_list exprs
  | .paren inner => add_effects_of inner
  | .object props => add_effects_props props
  | .array elems => add_effects_elems elems
  | .taggedTpl _ _ => none
  | .tpl _ => none
  | .class_ => none
  | .jsxMember | .jsxNamespacedName | .jsxEmpty | .jsxElement | .jsxFragment => none
  | .tsTypeAssertion inner | .tsNonNull inner | .tsTypeCast inner | .tsAs inner
  | .tsConstAssertion inner => add_effects_of inner
  | .tsOptChain inner => add_effects_of inner
  | .invalid => none

/-- Effects pushed for a list of expressions (the `Seq` case and the
`preserve_effects` fold), in order, with panic propagation. -/
def add_effects_list : ExprList → Option ExprList
  | .nil => some .nil
  | .cons x rest => do
      let a ← add_effects_of x
      let b ← add_effects_list rest
      some (a.append b)

/-- Effects of object literal members, in order. -/
def add_effects_props : PropsList → Option ExprList
  | .nil => some .nil
  | .cons p rest => do
      let a ← add_effects_prop p
      let b ← add_effects_props rest
      some (a.append b)

/-- Effects of one object literal member: shorthand contributes nothing,
key/value contributes the computed key's then the value's effects,
getter/setter/method only the computed key's, `Prop::Assign` is
`unreachable!`, a spread contributes its expression's effects. -/
def add_effects_prop : PropOrSpread → Option ExprList
  | .prop (.shorthand _) => some .nil
  | .prop (.keyValue key value) => do
      let k ← add_effects_key key
      let v ← add_effects_of value
      some (k.append v)
  | .prop (.getter key) => add_effects_key key
  | .prop (.setter key) => add_effects_key key
  | .prop (.method key) => add_effects_key key
  | .prop (.assignProp _ _) => none
  | .spreadProp ex => add_effects_of ex

/-- Effects of a property key: only computed keys contribute. -/
def add_effects_key : PropName → Option ExprList
  | .computed ex => add_effects_of ex
  | _ => some .nil

/-- Effects of array literal elements (elisions skipped). -/
def add_effects_elems : OESList → Option ExprList
  | .nil => some .nil
  | .cons none rest => add_effects_elems rest
  | .cons (some (.mk _ ex)) rest => do
      let a ← add_effects_of ex
      let b ← add_effects_elems rest
      some (a.append b)

end

/-- `undefined(span)` (util.rs lines 1229-1235): `void 0`. -/
def undefined_expr : Expr := .unary .voidOp (.lit (.num (.val 0)))

/-- `preserve_effects` (util.rs lines 1405-1516): flatten the given
expressions' effects; if none remain return `val`, otherwise the sequence of
the effects followed by `val`. -/
def preserve_effects (val : Expr) (exprs : ExprList) : Option Expr := do
  let es ← add_effects_list exprs
  match es with
  | .nil => some val
  | es => some (.seq (es.append (.cons val .nil)))

/-- `ignore_result(preserve_effects(span, *undefined(span), v))` in closed
form: with no residual effects the whole expression is droppable; otherwise
the trailing `void 0` is dropped by `ignore_result`'s sequence rule and the
sequence of the effects remains. `ignore_result` uses this for its
binary-operator and tagged-template cases; theorem `ignore_effects_spec`
proves it equal to the composition it abbreviates. -/
def ignore_effects (v : ExprList) : Option (Option Expr) :=
  match add_effects_list v with
  | none => none
  | some .nil => some none
  | some es => some (some (.seq es))

mutual

/-- `ignore_result` (dce/mod.rs lines 283-390). The outer `none` models a
panic; `some none` is the source's `None` (the expression is droppable);
`some (some e')` is `Some(e')`. The binary-operator and tagged-template
cases go through `ignore_effects` (see `ignore_effects_spec`); the
pure-callee call case goes through `ir_args`, which `ir_args_spec` proves
equal to the array-literal detour the source takes. -/
def ignore_result (e : Expr) : Option (Option Expr) :=
  match e with
  | .lit (.num _) => some none
  | .lit (.bool _) => some none
  | .lit .regex => some none
  | .ident _ => some none
  | .paren inner => ignore_result inner
  | .bin op l r =>
      if op = .logAnd ∨ op = .logOr then some (some (.bin op l r))
      else
        match ignore_result l with
        | none => none
        | some lo =>
            match ignore_result r with
            | none => none
            | some ro =>
                match lo, ro with
                | some l', some r' => ignore_effects (.cons l' (.cons r' .nil))
                | some l', none => some (some l')
                | none, some r' => some (some r')
                | none, none => some none
  | .unary op arg =>
      match op with
      | .voidOp | .typeofOp | .plus | .minus | .bang | .tilde => ignore_result arg
      | _ => some (some (.unary op arg))
  | .array elems =>
      match ir_elems elems with
      | none => none
      | some .nil => some none
      | some kept => some (some (.array kept))
  | .object .nil => some none
  | .call (.exprOS callee) args =>
      if is_pure_callee callee then
        match ir_args args with
        | none => none
        | some .nil => some none
        | some kept => some (some (.array kept))
      else some (some (.call (.exprOS callee) args))
  | .taggedTpl tag exprs =>
      if is_pure_callee tag then ignore_effects exprs
      else some (some (.taggedTpl tag exprs))
  | .fn _ => some none
  | .seq .nil => some none
  | .seq (.cons x rest) =>
      match ir_last (.cons x rest) with
      | none => none
      | some out => some (some (.seq out))
  | e => some (some e)

/-- The array case of `ignore_result` (`elems.move_flat_map(..)`): spread
elements kept unconditionally, elisions dropped, plain elements reduced
recursively and dropped when the reduction yields `None`; order preserved,
panics abort. -/
def ir_elems : OESList → Option OESList
  | .nil => some .nil
  | .cons none rest => ir_elems rest
  | .cons (some (.mk true ex)) rest =>
      match ir_elems rest with
      | none => none
      | some out => some (.cons (some (.mk true ex)) out)
  | .cons (some (.mk false ex)) rest =>
      match ignore_result ex with
      | none => none
      | some none => ir_elems rest
      | some (some ex') =>
          match ir_elems rest with
          | none => none
          | some out => some (.cons (some (.mk false ex')) out)

/-- The pure-callee call case of `ignore_result`: the source re-enters
`ignore_result` on `Array { elems: args.map(Some) }`; this runs the same
element loop directly on the argument list (see `ir_args_spec`). -/
def ir_args : ESList → Option OESList
  | .nil => some .nil
  | .cons (.mk true ex) rest =>
      match ir_args rest with
      | none => none
      | some out => some (.cons (some (.mk true ex)) out)
  | .cons (.mk false ex) rest =>
      match ignore_result ex with
      | none => none
      | some none => ir_args rest
      | some (some ex') =>
          match ir_args rest with
          | none => none
          | some out => some (.cons (some (.mk false ex')) out)

/-- The sequence case of `ignore_result`: `exprs.pop()` reduces only the
last element; the reduction, if it survives, is re-appended. -/
def ir_last : ExprList → Option ExprList
  | .nil => some .nil
  | .cons x .nil =>
      match ignore_result x with
      | none => none
      | some none => some .nil
      | some (some x') => some (.cons x' .nil)
  | .cons x rest =>
      match ir_last rest with
      | none => none
      | some out => some (.cons x out)

end

mutual

/-- The boolean verdict of `LiteralVisitor` (util.rs lines 967-1127) with
`allow_non_json_value = true`, as consumed by `is_literal`: `false` as soon
as any disqualifying construct occurs anywhere in the subtree (identifiers,
regexes, non-empty templates, spreads, computed or fractional-numeric keys,
non-key/value properties, and the `not_lit!` expression blacklist). The cost
accumulator is not modelled: no embedded caller reads it. -/
def is_lit_expr (e : Expr) : Bool :=
  match e with
  | .ident _ => false
  | .lit .regex => false
  | .lit _ => true
  | .tpl .nil => true
  | .tpl (.cons _ _) => false
  | .array elems => is_lit_elems elems
  | .object props => is_lit_props props
  | .paren inner => is_lit_expr inner
  | .tsTypeCast inner => is_lit_expr inner
  | .tsAs inner => is_lit_expr inner
  | _ => false

/-- Array elements under `LiteralVisitor`: elisions are allowed (the
`allow_non_json_value` mode), spreads disqualify. -/
def is_lit_elems : OESList → Bool
  | .nil => true
  | .cons none rest => is_lit_elems rest
  | .cons (some (.mk true _)) _ => false
  | .cons (some (.mk false ex)) rest => is_lit_expr ex && is_lit_elems rest

/-- Object members under `LiteralVisitor`: only key/value properties with a
literal-compatible key and value survive. -/
def is_lit_props : PropsList → Bool
  | .nil => true
  | .cons (.prop (.keyValue key value)) rest =>
      is_lit_key key && is_lit_expr value && is_lit_props rest
  | .cons _ _ => false

/-- Property names under `LiteralVisitor`: string/identifier keys are fine,
numeric keys only when `n.value.fract() < 1e-10` (with Rust truncation
semantics; NaN/infinite keys fail the comparison), computed keys disqualify. -/
def is_lit_key : PropName → Bool
  | .ident _ => true
  | .str _ => true
  | .num n =>
      match n with
      | .val q => decide (q - ((q.num / (q.den : ℤ) : ℤ) : ℚ) < (1 : ℚ) / 10000000000)
      | _ => false
  | .computed _ => false

end

/-- `is_literal` (util.rs lines 967-973): the boolean component of
`calc_literal_cost` with `allow_non_json_value = true`. -/
def is_literal (e : Expr) : Bool := is_lit_expr e

/-- The default right-hand sides discarded by `Fold<Pat>` and
`Fold<ObjectPatProp>` (dce/mod.rs lines 220-229 and 249-257): the
`undefined` identifier, or a `void` expression over a literal argument. -/
def droppable_default (e : Expr) : Bool :=
  is_undefined e ||
    match e with
    | .unary .voidOp arg => is_literal arg
    | _ => false

/-- The statement-level rewrite of `Fold<Stmt> for Remover` (dce/mod.rs
lines 123-211), applied after the children have been folded. -/
def fold_stmt_post (s : Stmt) : Option Stmt :=
  match s with
  | .ifS test .empty none =>
      match ignore_result test with
      | none => none
      | some (some ex) => some (.exprS ex)
      | some none => some .empty
  | .exprS ex =>
      match ignore_result ex with
      | none => none
      | some (some e2) => some (.exprS e2)
      | some none => some .empty
  | .block stmts =>
      match stmts with
      | .nil => some .empty
      | .cons s1 .nil => some s1
      | stmts => some (.block stmts)
  | .tryS block handler finalizer =>
      if block.isEmptyL then
        match finalizer with
        | some f => some (.block f)
        | none => some .empty
      else if optCatchIsEmpty handler ∧ optBlockIsEmpty finalizer then
        some (.block block)
      else some (.tryS block handler finalizer)
  | .ifS test cons alt =>
      if optStmtIsEmpty alt then some (.ifS test cons none)
      else some (.ifS test cons alt)
  | s => some s

/-- The pattern-level rewrite of `Fold<Pat> for Remover` (dce/mod.rs lines
215-238), applied after the children have been folded: an assignment pattern
whose default is `undefined`-like loses the default. -/
def fold_pat_post (p : Pat) : Pat :=
  match p with
  | .assign left right => if droppable_default right then left else .assign left right
  | p => p

/-- The rewrite of `Fold<ObjectPatProp> for Remover` (dce/mod.rs lines
240-270), applied after the children have been folded. -/
def fold_opp_post (p : ObjectPatProp) : ObjectPatProp :=
  match p with
  | .assign key (some ex) =>
      if droppable_default ex then .assign key none else .assign key (some ex)
  | p => p

/-- `exprs.move_flat_map(|e| ignore_result(e))` over a sequence's elements
(the tail of `Fold<SeqExpr>`, dce/mod.rs line 277). -/
def seq_flat_map : ExprList → Option ExprList
  | .nil => some .nil
  | .cons x rest =>
      match ignore_result x with
      | none => none
      | some none => seq_flat_map rest
      | some (some x') => do some (.cons x' (← seq_flat_map rest))

/-- The `if` replacement inside `Fold<Vec<T>>` (dce/mod.rs lines 64-88): a
statically known pure test selects the consequent, or the alternate
(defaulting to an empty statement); any other lattice answer keeps the `if`. -/
def if_replace (test : Expr) (cons : Stmt) (alt : Option Stmt) : Option Stmt := do
  match ← as_bool test with
  | (.pure, .known v) => some (if v then cons else alt.getD .empty)
  | _ => some (.ifS test cons alt)

mutual

/-- `Fold<Stmt> for Remover` (dce/mod.rs lines 119-213): children first
(`fold_children`, written out per constructor), then the statement rewrite
`fold_stmt_post`. -/
def fold_stmt (s : Stmt) : Option Stmt := do
  let s' ←
    match s with
    | .block stmts => do pure (Stmt.block (← fold_stmts stmts))
    | .empty => pure Stmt.empty
    | .debugger => pure Stmt.debugger
    | .withS obj body => do pure (Stmt.withS (← fold_expr obj) (← fold_stmt body))
    | .ret none => pure (Stmt.ret none)
    | .ret (some a) => do pure (Stmt.ret (some (← fold_expr a)))
    | .labeled l body => do pure (Stmt.labeled l (← fold_stmt body))
    | .brk l => pure (Stmt.brk l)
    | .cont l => pure (Stmt.cont l)
    | .ifS test cons none => do
        pure (Stmt.ifS (← fold_expr test) (← fold_stmt cons) none)
    | .ifS test cons (some alt) => do
        pure (Stmt.ifS (← fold_expr test) (← fold_stmt cons) (some (← fold_stmt alt)))
    | .switchS disc cases => do pure (Stmt.switchS (← fold_expr disc) (← fold_cases cases))
    | .throwS a => do pure (Stmt.throwS (← fold_expr a))
    | .tryS block handler finalizer => do
        let handler' ←
          match handler with
          | none => pure (none : Option CatchClause)
          | some (.mk param body) => do
              pure (some (CatchClause.mk (← fold_pat param) (← fold_stmts body)))
        let finalizer' ←
          match finalizer with
          | none => pure (none : Option StmtList)
          | some f => do pure (some (← fold_stmts f))
        pure (Stmt.tryS (← fold_stmts block) handler' finalizer')
    | .whileS t b => do pure (Stmt.whileS (← fold_expr t) (← fold_stmt b))
    | .doWhile t b => do pure (Stmt.doWhile (← fold_expr t) (← fold_stmt b))
    | .forS init test upd body => do
        let init' ←
          match init with
          | none => pure (none : Option VarDeclOrExpr)
          | some (.varD kind decls) => do pure (some (VarDeclOrExpr.varD kind (← fold_decls decls)))
          | some (.expr e) => do pure (some (VarDeclOrExpr.expr (← fold_expr e)))
        let test' ←
          match test with
          | none => pure (none : Option Expr)
          | some t => do pure (some (← fold_expr t))
        let upd' ←
          match upd with
          | none => pure (none : Option Expr)
          | some u => do pure (some (← fold_expr u))
        pure (Stmt.forS init' test' upd' (← fold_stmt body))
    | .forIn left right body => do
        pure (Stmt.forIn (← fold_vdp left) (← fold_expr right) (← fold_stmt body))
    | .forOf left right body => do
        pure (Stmt.forOf (← fold_vdp left) (← fold_expr right) (← fold_stmt body))
    | .declVar kind decls => do pure (Stmt.declVar kind (← fold_decls decls))
    | .declFn name none => pure (Stmt.declFn name none)
    | .declFn name (some body) => do pure (Stmt.declFn name (some (← fold_stmts body)))
    | .declClass n => pure (Stmt.declClass n)
    | .declOther => pure Stmt.declOther
    | .exprS e => do pure (Stmt.exprS (← fold_expr e))
  fold_stmt_post s'

/-- `Fold<Vec<T>> for Remover` on statement lists (dce/mod.rs lines 35-117):
fold each statement, drop empties, stop right after an unconditional control
transfer, and rewrite statically decided `if`s. The source's `Decl::Var` arm
additionally registers the declared identifiers in the current scope; the
`VarInfo` usage counters are never read anywhere in the excerpt, so the
registration has no observable effect and is not modelled. -/
def fold_stmts (l : StmtList) : Option StmtList :=
  match l with
  | .nil => some .nil
  | .cons s rest => do
      let s ← fold_stmt s
      match s with
      | .empty => fold_stmts rest
      | .throwS a => some (.cons (.throwS a) .nil)
      | .ret a => some (.cons (.ret a) .nil)
      | .cont l => some (.cons (.cont l) .nil)
      | .brk l => some (.cons (.brk l) .nil)
      | .ifS test cons alt => do
          let node ← if_replace test cons alt
          pure (StmtList.cons node (← fold_stmts rest))
      | s => do pure (StmtList.cons s (← fold_stmts rest))

/-- Default `Fold<Expr>`: fold every child, dispatching the custom
`Fold<SeqExpr>`, `Fold<Vec<Stmt>>`, `Fold<Pat>` and `Fold<ObjectPatProp>`
impls where those types occur. -/
def fold_expr (e : Expr) : Option Expr := do
  match e with
  | .this => pure Expr.this
  | .array elems => do pure (Expr.array (← fold_elems elems))
  | .object props => do pure (Expr.object (← fold_props props))
  | .fn none => pure (Expr.fn none)
  | .fn (some body) => do pure (Expr.fn (some (← fold_stmts body)))
  | .unary op arg => do pure (Expr.unary op (← fold_expr arg))
  | .update op pre arg => do pure (Expr.update op pre (← fold_expr arg))
  | .bin op l r => do pure (Expr.bin op (← fold_expr l) (← fold_expr r))
  | .assign op left right => do
      pure (Expr.assign op (← fold_pat_or_expr left) (← fold_expr right))
  | .member obj prop c => do pure (Expr.member (← fold_eos obj) (← fold_expr prop) c)
  | .cond t c a => do pure (Expr.cond (← fold_expr t) (← fold_expr c) (← fold_expr a))
  | .call callee args => do pure (Expr.call (← fold_eos callee) (← fold_args args))
  | .newE callee none => do pure (Expr.newE (← fold_expr callee) none)
  | .newE callee (some args) => do pure (Expr.newE (← fold_expr callee) (some (← fold_args args)))
  | .seq exprs => do
      -- the `Fold<SeqExpr>` impl: children first, then `move_flat_map ignore_result`
      pure (Expr.seq (← seq_flat_map (← fold_exprs exprs)))
  | .ident s => pure (Expr.ident s)
  | .lit l => pure (Expr.lit l)
  | .tpl exprs => do pure (Expr.tpl (← fold_exprs exprs))
  | .taggedTpl tag exprs => do pure (Expr.taggedTpl (← fold_expr tag) (← fold_exprs exprs))
  | .arrow => pure Expr.arrow
  | .class_ => pure Expr.class_
  | .yieldE none => pure (Expr.yieldE none)
  | .yieldE (some a) => do pure (Expr.yieldE (some (← fold_expr a)))
  | .metaProp => pure Expr.metaProp
  | .awaitE a => do pure (Expr.awaitE (← fold_expr a))
  | .paren inner => do pure (Expr.paren (← fold_expr inner))
  | .jsxMember => pure Expr.jsxMember
  | .jsxNamespacedName => pure Expr.jsxNamespacedName
  | .jsxEmpty => pure Expr.jsxEmpty
  | .jsxElement => pure Expr.jsxElement
  | .jsxFragment => pure Expr.jsxFragment
  | .tsTypeAssertion inner => do pure (Expr.tsTypeAssertion (← fold_expr inner))
  | .tsConstAssertion inner => do pure (Expr.tsConstAssertion (← fold_expr inner))
  | .tsNonNull inner => do pure (Expr.tsNonNull (← fold_expr inner))
  | .tsTypeCast inner => do pure (Expr.tsTypeCast (← fold_expr inner))
  | .tsAs inner => do pure (Expr.tsAs (← fold_expr inner))
  | .tsOptChain inner => do pure (Expr.tsOptChain (← fold_expr inner))
  | .privateName s => pure (Expr.privateName s)
  | .invalid => pure Expr.invalid

/-- `Fold<Pat> for Remover` (dce/mod.rs lines 215-238): children first, then
the default-dropping rewrite. -/
def fold_pat (p : Pat) : Option Pat := do
  let p' ←
    match p with
    | .ident s => pure (Pat.ident s)
    | .array elems => do pure (Pat.array (← fold_opt_pats elems))
    | .rest arg => do pure (Pat.rest (← fold_pat arg))
    | .object props => do pure (Pat.object (← fold_opps props))
    | .assign left right => do pure (Pat.assign (← fold_pat left) (← fold_expr right))
    | .expr e => do pure (Pat.expr (← fold_expr e))
    | .invalid => pure Pat.invalid
  pure (fold_pat_post p')

/-- `Fold<ObjectPatProp> for Remover` (dce/mod.rs lines 240-270): children
first, then the shorthand-default rewrite. -/
def fold_opp (p : ObjectPatProp) : Option ObjectPatProp := do
  let p' ←
    match p with
    | .keyValue key value => do pure (ObjectPatProp.keyValue (← fold_prop_name key) (← fold_pat value))
    | .assign key none => pure (ObjectPatProp.assign key none)
    | .assign key (some v) => do pure (ObjectPatProp.assign key (some (← fold_expr v)))
    | .rest arg => do pure (ObjectPatProp.rest (← fold_pat arg))
  pure (fold_opp_post p')

/-- Child folding of property names. -/
def fold_prop_name (k : PropName) : Option PropName :=
  match k with
  | .ident s => pure (PropName.ident s)
  | .str s => pure (PropName.str s)
  | .num n => pure (PropName.num n)
  | .computed e => do pure (PropName.computed (← fold_expr e))

/-- Child folding of expression lists. -/
def fold_exprs (l : ExprList) : Option ExprList :=
  match l with
  | .nil => pure ExprList.nil
  | .cons x rest => do pure (ExprList.cons (← fold_expr x) (← fold_exprs rest))

/-- Child folding of array literal elements. -/
def fold_elems (l : OESList) : Option OESList :=
  match l with
  | .nil => pure OESList.nil
  | .cons none rest => do pure (OESList.cons none (← fold_elems rest))
  | .cons (some (.mk sp ex)) rest => do
      pure (OESList.cons (some (ExprOrSpread.mk sp (← fold_expr ex))) (← fold_elems rest))

/-- Child folding of call arguments. -/
def fold_args (l : ESList) : Option ESList :=
  match l with
  | .nil => pure ESList.nil
  | .cons (.mk sp ex) rest => do
      pure (ESList.cons (ExprOrSpread.mk sp (← fold_expr ex)) (← fold_args rest))

/-- Child folding of object literal members. -/
def fold_props (l : PropsList) : Option PropsList :=
  match l with
  | .nil => pure PropsList.nil
  | .cons p rest => do pure (PropsList.cons (← fold_prop p) (← fold_props rest))

/-- Child folding of one object literal member. -/
def fold_prop (p : PropOrSpread) : Option PropOrSpread :=
  match p with
  | .prop (.shorthand s) => pure (PropOrSpread.prop (.shorthand s))
  | .prop (.keyValue key value) => do
      pure (PropOrSpread.prop (.keyValue (← fold_prop_name key) (← fold_expr value)))
  | .prop (.assignProp s value) => do
      pure (PropOrSpread.prop (.assignProp s (← fold_expr value)))
  | .prop (.getter key) => do pure (PropOrSpread.prop (.getter (← fold_prop_name key)))
  | .prop (.setter key) => do pure (PropOrSpread.prop (.setter (← fold_prop_name key)))
  | .prop (.method key) => do pure (PropOrSpread.prop (.method (← fold_prop_name key)))
  | .spreadProp ex => do pure (PropOrSpread.spreadProp (← fold_expr ex))

/-- Child folding of `PatOrExpr`. -/
def fold_pat_or_expr (poe : PatOrExpr) : Option PatOrExpr :=
  match poe with
  | .pat p => do pure (PatOrExpr.pat (← fold_pat p))
  | .expr e => do pure (PatOrExpr.expr (← fold_expr e))

/-- Child folding of `ExprOrSuper`. -/
def fold_eos (c : ExprOrSuper) : Option ExprOrSuper :=
  match c with
  | .exprOS e => do pure (ExprOrSuper.exprOS (← fold_expr e))
  | .superOS => pure ExprOrSuper.superOS

/-- Child folding of array pattern elements. -/
def fold_opt_pats (l : OptPatList) : Option OptPatList :=
  match l with
  | .nil => pure OptPatList.nil
  | .cons none rest => do pure (OptPatList.cons none (← fold_opt_pats rest))
  | .cons (some p) rest => do pure (OptPatList.cons (some (← fold_pat p)) (← fold_opt_pats rest))

/-- Child folding of object pattern properties. -/
def fold_opps (l : OPPList) : Option OPPList :=
  match l with
  | .nil => pure OPPList.nil
  | .cons p rest => do pure (OPPList.cons (← fold_opp p) (← fold_opps rest))

/-- Child folding of variable declarators. -/
def fold_decls (l : DeclList) : Option DeclList :=
  match l with
  | .nil => pure DeclList.nil
  | .cons (.mk name none) rest => do
      pure (DeclList.cons (VarDeclarator.mk (← fold_pat name) none) (← fold_decls rest))
  | .cons (.mk name (some init)) rest => do
      pure (DeclList.cons (VarDeclarator.mk (← fold_pat name) (some (← fold_expr init)))
        (← fold_decls rest))

/-- Child folding of switch cases (their bodies are statement lists and go
through the custom `Fold<Vec<_>>`). -/
def fold_cases (l : CaseList) : Option CaseList :=
  match l with
  | .nil => pure CaseList.nil
  | .cons (.mk none cons) rest => do
      pure (CaseList.cons (SwitchCase.mk none (← fold_stmts cons)) (← fold_cases rest))
  | .cons (.mk (some test) cons) rest => do
      pure (CaseList.cons (SwitchCase.mk (some (← fold_expr test)) (← fold_stmts cons))
        (← fold_cases rest))

/-- Child folding of a `for-in`/`for-of` left-hand side. -/
def fold_vdp (v : VarDeclOrPat) : Option VarDeclOrPat :=
  match v with
  | .varD kind decls => do pure (VarDeclOrPat.varD kind (← fold_decls decls))
  | .pat p => do pure (VarDeclOrPat.pat (← fold_pat p))

end

/-- `Fold<SeqExpr> for Remover` (dce/mod.rs lines 272-281): children folded
first, then every element — including the last — reduced via
`ignore_result`, dropped elements removed (this is the `seq` arm of
`fold_expr`, exposed as the standalone function the source declares). -/
def fold_seq (exprs : ExprList) : Option ExprList := do
  seq_flat_map (← fold_exprs exprs)

/-- `Array { elems: args.map(Some) }`, the node the source's pure-callee call
case builds. -/
def args_to_elems : ESList → OESList
  | .nil => .nil
  | .cons a rest => .cons (some a) (args_to_elems rest)

/-- The C3 failing input: the statement list `if (true) {} else {}`. -/
def c3_input : StmtList :=
  .cons (.ifS (.lit (.bool true)) (.block .nil) (some (.block .nil))) .nil

/-- The unconditional control-transfer statement forms of the `Fold<Vec<T>>`
truncation arm. -/
def is_ctrl : Stmt → Bool
  | .throwS _ => true
  | .ret _ => true
  | .cont _ => true
  | .brk _ => true
  | _ => false

/-- What the statement-list fold emits for one already-folded,
non-control-transfer statement: `none` is a panic, `some none` a dropped
empty statement, `some (some node)` an emitted node. -/
def vec_emit (u : Stmt) : Option (Option Stmt) :=
  match u with
  | .empty => some none
  | .ifS a b c => (if_replace a b c).map some
  | u => some (some u)

/-- Every statement of the list folds, without panicking, to a
non-control-transfer statement. -/
def folds_non_ctrl : StmtList → Bool
  | .nil => true
  | .cons s rest =>
      match fold_stmt s with
      | none => false
      | some u => !is_ctrl u && folds_non_ctrl rest

mutual

/-- The side condition of the amended C2 claim: the expression contains (in
the positions the reducer and effect functions inspect) no tagged template
whose tag is a recognized pure callee, no getter/setter/method
object-literal property, and no zero-argument `Date` construction — the
forms `ignore_result`/`add_effects` deliberately treat as droppable or
effect-free while `may_have_side_effects` conservatively reports `true`. -/
def no_drop_impure (e : Expr) : Bool :=
  match e with
  | .this => true
  | .ident _ => true
  | .lit _ => true
  | .fn _ => true
  | .arrow => true
  | .class_ => true
  | .metaProp => true
  | .privateName _ => true
  | .jsxMember => true
  | .jsxNamespacedName => true
  | .jsxEmpty => true
  | .jsxElement => true
  | .jsxFragment => true
  | .invalid => true
  | .array elems => ndi_elems elems
  | .object props => ndi_props props
  | .unary _ arg => no_drop_impure arg
  | .update _ _ arg => no_drop_impure arg
  | .bin _ l r => no_drop_impure l && no_drop_impure r
  | .assign _ left right => ndi_poe left && no_drop_impure right
  | .member obj prop _ => ndi_eos obj && no_drop_impure prop
  | .cond t c a => no_drop_impure t && no_drop_impure c && no_drop_impure a
  | .call callee args => ndi_eos callee && ndi_args args
  | .newE callee none =>
      !(is_ident_ref_to callee "Date" && optArgsIsEmpty none) && no_drop_impure callee
  | .newE callee (some args) =>
      !(is_ident_ref_to callee "Date" && optArgsIsEmpty (some args)) &&
        no_drop_impure callee && ndi_args args
  | .seq exprs => ndi_list exprs
  | .tpl exprs => ndi_list exprs
  | .taggedTpl tag exprs => !is_pure_callee tag && no_drop_impure tag && ndi_list exprs
  | .yieldE none => true
  | .yieldE (some a) => no_drop_impure a
  | .awaitE a => no_drop_impure a
  | .paren inner => no_drop_impure inner
  | .tsTypeAssertion inner => no_drop_impure inner
  | .tsConstAssertion inner => no_drop_impure inner
  | .tsNonNull inner => no_drop_impure inner
  | .tsTypeCast inner => no_drop_impure inner
  | .tsAs inner => no_drop_impure inner
  | .tsOptChain inner => no_drop_impure inner

/-- `no_drop_impure` over expression lists. -/
def ndi_list : ExprList → Bool
  | .nil => true
  | .cons e rest => no_drop_impure e && ndi_list rest

/-- `no_drop_impure` over array elements. -/
def ndi_elems : OESList → Bool
  | .nil => true
  | .cons none rest => ndi_elems rest
  | .cons (some (.mk _ ex)) rest => no_drop_impure ex && ndi_elems rest

/-- `no_drop_impure` over argument lists. -/
def ndi_args : ESList → Bool
  | .nil => true
  | .cons (.mk _ ex) rest => no_drop_impure ex && ndi_args rest

/-- `no_drop_impure` over object members. -/
def ndi_props : PropsList → Bool
  | .nil => true
  | .cons p rest => ndi_prop p && ndi_props rest

/-- `no_drop_impure` for one object member; accessor and method properties
are the excluded forms. -/
def ndi_prop : PropOrSpread → Bool
  | .prop (.shorthand _) => true
  | .prop (.keyValue key value) => ndi_key key && no_drop_impure value
  | .prop (.assignProp _ v) => no_drop_impure v
  | .prop (.getter _) => false
  | .prop (.setter _) => false
  | .prop (.method _) => false
  | .spreadProp ex => no_drop_impure ex

/-- `no_drop_impure` for property keys. -/
def ndi_key : PropName → Bool
  | .computed ex => no_drop_impure ex
  | _ => true

/-- `no_drop_impure` for callees. -/
def ndi_eos : ExprOrSuper → Bool
  | .exprOS e => no_drop_impure e
  | .superOS => true

/-- `no_drop_impure` for assignment targets (patterns are not traversed by
the reducer or effect functions). -/
def ndi_poe : PatOrExpr → Bool
  | .pat _ => true
  | .expr e => no_drop_impure e

end

/-! Bridge theorems: the two places where `ignore_result` was written in
closed form (`ignore_effects`, `ir_args`) compute exactly the compositions
the source spells out. -/

/-- `ignore_result` drops `void 0` (the `undefined(span)` expression). -/
theorem ignore_result_undefined_expr : ignore_result undefined_expr = some none := rfl

/-- The sequence rule of `ignore_result` on `effects ++ [void 0]` drops the
trailing `void 0` and keeps the effects. -/
theorem ir_last_append_undefined (xs : ExprList) :
    ir_last (xs.append (.cons undefined_expr .nil)) = some xs := by
  cases xs with
  | nil => rfl
  | cons x rest =>
      cases rest with
      | nil => rfl
      | cons y ys =>
          have ih := ir_last_append_undefined (.cons y ys)
          show ir_last (.cons x (ExprList.append (.cons y ys) (.cons undefined_expr .nil)))
            = some (.cons x (.cons y ys))
          rw [ir_last, ih]
          exact fun h => ExprList.noConfusion h

/-- `ignore_effects v` is exactly
`ignore_result (preserve_effects (span, undefined(span), v))`, the
composition written in the source's binary-operator and tagged-template
cases. -/
theorem ignore_effects_spec (v : ExprList) :
    (preserve_effects undefined_expr v).bind ignore_result = ignore_effects v := by
  unfold preserve_effects ignore_effects
  cases h : add_effects_list v with
  | none => simp [h, Option.bind]
  | some es =>
      cases es with
      | nil => simp [h, Option.bind]; rfl
      | cons e es' =>
          simp only [h, Option.bind]
          show ignore_result (.seq (ExprList.append (.cons e es') (.cons undefined_expr .nil)))
            = some (some (.seq (.cons e es')))
          rw [show ExprList.append (.cons e es') (.cons undefined_expr .nil)
              = .cons e (ExprList.append es' (.cons undefined_expr .nil)) from rfl]
          rw [ignore_result]
          rw [show ExprList.cons e (ExprList.append es' (.cons undefined_expr .nil))
              = ExprList.append (.cons e es') (.cons undefined_expr .nil) from rfl]
          rw [ir_last_append_undefined]

/-- `ir_args` is the array element loop run on `args.map(Some)`. -/
theorem ir_args_spec (args : ESList) : ir_args args = ir_elems (args_to_elems args) := by
  cases args with
  | nil => rfl
  | cons a rest =>
      have ih := ir_args_spec rest
      cases a with
      | mk sp ex =>
          cases sp with
          | true => simp [ir_args, ir_elems, args_to_elems, ih]
          | false => simp only [ir_args, ir_elems, args_to_elems, ih]

/-- The pure-callee call case of `ignore_result` equals the source's detour
through an array literal of the arguments. -/
theorem ir_call_spec (callee : Expr) (args : ESList) (h : is_pure_callee callee = true) :
    ignore_result (.call (.exprOS callee) args)
      = ignore_result (.array (args_to_elems args)) := by
  rw [ignore_result, ignore_result, h, ir_args_spec]
  simp

theorem append_nil_el (xs : ExprList) : xs.append .nil = xs := by
  cases xs with
  | nil => rfl
  | cons x rest => show ExprList.cons x (rest.append .nil) = _; rw [append_nil_el rest]

theorem append_assoc_el (a b c : ExprList) :
    (a.append b).append c = a.append (b.append c) := by
  cases a with
  | nil => rfl
  | cons x rest =>
      show ExprList.cons x ((rest.append b).append c) = ExprList.cons x (rest.append (b.append c))
      rw [append_assoc_el rest b c]

theorem append_eq_nil_el (xs ys : ExprList) (h : xs.append ys = .nil) :
    xs = .nil ∧ ys = .nil := by
  cases xs with
  | nil => exact ⟨rfl, h⟩
  | cons x rest => exact ExprList.noConfusion h

/-- `add_effects_list` distributes over append. -/
theorem add_effects_list_append (xs ys : ExprList) :
    add_effects_list (xs.append ys)
      = (add_effects_list xs).bind (fun a =>
          (add_effects_list ys).bind (fun b => some (a.append b))) := by
  cases xs with
  | nil =>
      show add_effects_list ys = (some ExprList.nil).bind _
      cases h : add_effects_list ys with
      | none => simp [h, Option.bind]
      | some c => simp [h, Option.bind]; rfl
  | cons x rest =>
      have ih := add_effects_list_append rest ys
      show add_effects_list (.cons x (rest.append ys)) = _
      rw [add_effects_list, ih, add_effects_list]
      cases ha : add_effects_of x with
      | none => rfl
      | some a =>
          simp only [Option.bind]
          cases hb : add_effects_list rest with
          | none => rfl
          | some b =>
              simp only [Option.bind]
              cases hc : add_effects_list ys with
              | none => rfl
              | some c =>
                  show some (a.append (b.append c)) = some ((a.append b).append c)
                  rw [append_assoc_el]


mutual

theorem effects_flat (e : Expr) (es : ExprList) (h : add_effects_of e = some es) :
    add_effects_list es = some es := by
  cases e with
  | lit l => rw [add_effects_of] at h; injection h with h2; subst h2; rfl
  | this => rw [add_effects_of] at h; injection h with h2; subst h2; rfl
  | fn b => rw [add_effects_of] at h; injection h with h2; subst h2; rfl
  | arrow => rw [add_effects_of] at h; injection h with h2; subst h2; rfl
  | ident s => rw [add_effects_of] at h; injection h with h2; subst h2; rfl
  | privateName s => rw [add_effects_of] at h; injection h with h2; subst h2; rfl
  | update op pre arg => rw [add_effects_of] at h; injection h with h2; subst h2; rfl
  | assign op l r => rw [add_effects_of] at h; injection h with h2; subst h2; rfl
  | yieldE a => rw [add_effects_of] at h; injection h with h2; subst h2; rfl
  | awaitE a => rw [add_effects_of] at h; injection h with h2; subst h2; rfl
  | metaProp => rw [add_effects_of] at h; injection h with h2; subst h2; rfl
  | call c args => rw [add_effects_of] at h; injection h with h2; subst h2; rfl
  | member o p c => rw [add_effects_of] at h; injection h with h2; subst h2; rfl
  | cond t c a => rw [add_effects_of] at h; injection h with h2; subst h2; rfl
  | newE callee args =>
      cases callee with
      | ident sym =>
          by_cases hg : sym = "Date" ∧ optArgsIsEmpty args
          · rw [add_effects_of, if_pos hg] at h
            injection h with h2; subst h2; rfl
          · rw [add_effects_of, if_neg hg] at h
            injection h with h2; subst h2
            show add_effects_list (.cons (.newE (.ident sym) args) .nil) = _
            rw [add_effects_list, add_effects_of, if_neg hg]
            rfl
      | _ =>
          simp only [add_effects_of] at h
          injection h with h2; subst h2; rfl
  | unary op arg =>
      rw [add_effects_of] at h
      exact effects_flat arg es h
  | paren inner =>
      rw [add_effects_of] at h
      exact effects_flat inner es h
  | tsTypeAssertion inner => rw [add_effects_of] at h; exact effects_flat inner es h
  | tsConstAssertion inner => rw [add_effects_of] at h; exact effects_flat inner es h
  | tsNonNull inner => rw [add_effects_of] at h; exact effects_flat inner es h
  | tsTypeCast inner => rw [add_effects_of] at h; exact effects_flat inner es h
  | tsAs inner => rw [add_effects_of] at h; exact effects_flat inner es h
  | tsOptChain inner => rw [add_effects_of] at h; exact effects_flat inner es h
  | bin op l r =>
      rw [add_effects_of] at h
      cases hl : add_effects_of l with
      | none => simp [hl] at h
      | some a =>
          cases hr : add_effects_of r with
          | none => simp [hl, hr] at h
          | some b =>
              simp [hl, hr] at h
              subst h
              rw [add_effects_list_append, effects_flat l a hl, effects_flat r b hr]
              rfl
  | seq exprs =>
      rw [add_effects_of] at h
      exact effects_flat_list exprs es h
  | object props =>
      rw [add_effects_of] at h
      exact effects_flat_props props es h
  | array elems =>
      rw [add_effects_of] at h
      exact effects_flat_elems elems es h
  | tpl exprs => rw [add_effects_of] at h; exact Option.noConfusion h
  | taggedTpl tag exprs => rw [add_effects_of] at h; exact Option.noConfusion h
  | class_ => rw [add_effects_of] at h; exact Option.noConfusion h
  | jsxMember => rw [add_effects_of] at h; exact Option.noConfusion h
  | jsxNamespacedName => rw [add_effects_of] at h; exact Option.noConfusion h
  | jsxEmpty => rw [add_effects_of] at h; exact Option.noConfusion h
  | jsxElement => rw [add_effects_of] at h; exact Option.noConfusion h
  | jsxFragment => rw [add_effects_of] at h; exact Option.noConfusion h
  | invalid => rw [add_effects_of] at h; exact Option.noConfusion h

theorem effects_flat_list (l : ExprList) (es : ExprList) (h : add_effects_list l = some es) :
    add_effects_list es = some es := by
  cases l with
  | nil => rw [add_effects_list] at h; injection h with h2; subst h2; rfl
  | cons x rest =>
      rw [add_effects_list] at h
      cases hx : add_effects_of x with
      | none => simp [hx] at h
      | some a =>
          cases hr : add_effects_list rest with
          | none => simp [hx, hr] at h
          | some b =>
              simp [hx, hr] at h
              subst h
              rw [add_effects_list_append, effects_flat x a hx, effects_flat_list rest b hr]
              rfl

theorem effects_flat_props (ps : PropsList) (es : ExprList)
    (h : add_effects_props ps = some es) : add_effects_list es = some es := by
  cases ps with
  | nil => rw [add_effects_props] at h; injection h with h2; subst h2; rfl
  | cons p rest =>
      rw [add_effects_props] at h
      cases hp : add_effects_prop p with
      | none => simp [hp] at h
      | some a =>
          cases hr : add_effects_props rest with
          | none => simp [hp, hr] at h
          | some b =>
              simp [hp, hr] at h
              subst h
              rw [add_effects_list_append, effects_flat_prop p a hp,
                effects_flat_props rest b hr]
              rfl

theorem effects_flat_prop (p : PropOrSpread) (es : ExprList)
    (h : add_effects_prop p = some es) : add_effects_list es = some es := by
  cases p with
  | spreadProp ex => rw [add_effects_prop] at h; exact effects_flat ex es h
  | prop jp =>
      cases jp with
      | shorthand s => rw [add_effects_prop] at h; injection h with h2; subst h2; rfl
      | assignProp s v => rw [add_effects_prop] at h; exact Option.noConfusion h
      | getter key => rw [add_effects_prop] at h; exact effects_flat_key key es h
      | setter key => rw [add_effects_prop] at h; exact effects_flat_key key es h
      | method key => rw [add_effects_prop] at h; exact effects_flat_key key es h
      | keyValue key value =>
          rw [add_effects_prop] at h
          cases hk : add_effects_key key with
          | none => simp [hk] at h
          | some a =>
              cases hv : add_effects_of value with
              | none => simp [hk, hv] at h
              | some b =>
                  simp [hk, hv] at h
                  subst h
                  rw [add_effects_list_append, effects_flat_key key a hk,
                    effects_flat value b hv]
                  rfl

theorem effects_flat_key (k : PropName) (es : ExprList)
    (h : add_effects_key k = some es) : add_effects_list es = some es := by
  cases k with
  | computed ex => rw [add_effects_key] at h; exact effects_flat ex es h
  | ident s => simp only [add_effects_key] at h; injection h with h2; subst h2; rfl
  | str s => simp only [add_effects_key] at h; injection h with h2; subst h2; rfl
  | num n => simp only [add_effects_key] at h; injection h with h2; subst h2; rfl

theorem effects_flat_elems (l : OESList) (es : ExprList)
    (h : add_effects_elems l = some es) : add_effects_list es = some es := by
  cases l with
  | nil => rw [add_effects_elems] at h; injection h with h2; subst h2; rfl
  | cons elem rest =>
      cases elem with
      | none => rw [add_effects_elems] at h; exact effects_flat_elems rest es h
      | some eos =>
          cases eos with
          | mk sp ex =>
              rw [add_effects_elems] at h
              cases hx : add_effects_of ex with
              | none => simp [hx] at h
              | some a =>
                  cases hr : add_effects_elems rest with
                  | none => simp [hx, hr] at h
                  | some b =>
                      simp [hx, hr] at h
                      subst h
                      rw [add_effects_list_append, effects_flat ex a hx,
                        effects_flat_elems rest b hr]
                      rfl

end

/-- Identifiers never have side effects (whether or not they are `Date`). -/
theorem mhse_ident_false (s : String) : may_have_side_effects (.ident s) = some false := by
  rw [may_have_side_effects]; split <;> rfl

/-- Function expressions never have side effects (whether or not their body
is empty). -/
theorem mhse_fn_false (b : Option StmtList) : may_have_side_effects (.fn b) = some false := by
  rw [may_have_side_effects]; split <;> rfl

mutual

theorem p3_effects_nil (e : Expr) (hn : no_drop_impure e = true)
    (h : add_effects_of e = some .nil) : may_have_side_effects e = some false := by
  cases e with
  | this => rfl
  | lit l => rfl
  | ident s => exact mhse_ident_false s
  | fn b => exact mhse_fn_false b
  | arrow => rfl
  | privateName s => rfl
  | tsConstAssertion inner => rfl
  | update op pre arg =>
      rw [add_effects_of] at h; injection h with h2; exact ExprList.noConfusion h2
  | assign op l r =>
      rw [add_effects_of] at h; injection h with h2; exact ExprList.noConfusion h2
  | yieldE a =>
      rw [add_effects_of] at h; injection h with h2; exact ExprList.noConfusion h2
  | awaitE a =>
      rw [add_effects_of] at h; injection h with h2; exact ExprList.noConfusion h2
  | metaProp =>
      rw [add_effects_of] at h; injection h with h2; exact ExprList.noConfusion h2
  | call c args =>
      rw [add_effects_of] at h; injection h with h2; exact ExprList.noConfusion h2
  | member o p cc =>
      rw [add_effects_of] at h; injection h with h2; exact ExprList.noConfusion h2
  | cond t c a =>
      rw [add_effects_of] at h; injection h with h2; exact ExprList.noConfusion h2
  | newE callee args =>
      cases callee with
      | ident sym =>
          by_cases hg : sym = "Date" ∧ optArgsIsEmpty args
          · exfalso
            obtain ⟨hg1, hg2⟩ := hg
            subst hg1
            cases args with
            | none => simp [no_drop_impure, is_ident_ref_to, optArgsIsEmpty] at hn
            | some l =>
                rw [no_drop_impure] at hn
                simp [is_ident_ref_to, hg2] at hn
          · rw [add_effects_of, if_neg hg] at h
            injection h with h2; exact ExprList.noConfusion h2
      | _ => simp [add_effects_of] at h
  | unary op arg =>
      rw [add_effects_of] at h
      rw [no_drop_impure] at hn
      exact p3_effects_nil arg hn h
  | paren inner =>
      rw [add_effects_of] at h
      rw [no_drop_impure] at hn
      exact p3_effects_nil inner hn h
  | tsTypeAssertion inner =>
      rw [add_effects_of] at h
      rw [no_drop_impure] at hn
      exact p3_effects_nil inner hn h
  | tsNonNull inner =>
      rw [add_effects_of] at h
      rw [no_drop_impure] at hn
      exact p3_effects_nil inner hn h
  | tsTypeCast inner =>
      rw [add_effects_of] at h
      rw [no_drop_impure] at hn
      exact p3_effects_nil inner hn h
  | tsAs inner =>
      rw [add_effects_of] at h
      rw [no_drop_impure] at hn
      exact p3_effects_nil inner hn h
  | tsOptChain inner =>
      rw [add_effects_of] at h
      rw [no_drop_impure] at hn
      exact p3_effects_nil inner hn h
  | bin op l r =>
      rw [add_effects_of] at h
      simp only [no_drop_impure, Bool.and_eq_true] at hn
      obtain ⟨hn1, hn2⟩ := hn
      cases hl : add_effects_of l with
      | none => simp [hl] at h
      | some a =>
          cases hr : add_effects_of r with
          | none => simp [hl, hr] at h
          | some b =>
              simp [hl, hr] at h
              obtain ⟨ha, hb⟩ := append_eq_nil_el a b h
              subst ha; subst hb
              have ih1 := p3_effects_nil l hn1 hl
              have ih2 := p3_effects_nil r hn2 hr
              rw [show may_have_side_effects (.bin op l r)
                  = (may_have_side_effects l).bind
                      (fun lb => if lb then some true else may_have_side_effects r) from rfl,
                ih1, ih2]
              rfl
  | seq exprs =>
      rw [add_effects_of] at h
      rw [no_drop_impure] at hn
      exact p3_list exprs hn h
  | object props =>
      rw [add_effects_of] at h
      rw [no_drop_impure] at hn
      exact p3_props props hn h
  | array elems =>
      rw [add_effects_of] at h
      rw [no_drop_impure] at hn
      exact p3_elems elems hn h
  | tpl exprs => rw [add_effects_of] at h; exact Option.noConfusion h
  | taggedTpl tag exprs => rw [add_effects_of] at h; exact Option.noConfusion h
  | class_ => rw [add_effects_of] at h; exact Option.noConfusion h
  | jsxMember => rw [add_effects_of] at h; exact Option.noConfusion h
  | jsxNamespacedName => rw [add_effects_of] at h; exact Option.noConfusion h
  | jsxEmpty => rw [add_effects_of] at h; exact Option.noConfusion h
  | jsxElement => rw [add_effects_of] at h; exact Option.noConfusion h
  | jsxFragment => rw [add_effects_of] at h; exact Option.noConfusion h
  | invalid => rw [add_effects_of] at h; exact Option.noConfusion h

theorem p3_list (l : ExprList) (hn : ndi_list l = true)
    (h : add_effects_list l = some .nil) : mhse_list l = some false := by
  cases l with
  | nil => rfl
  | cons x rest =>
      rw [add_effects_list] at h
      simp only [ndi_list, Bool.and_eq_true] at hn
      obtain ⟨hn1, hn2⟩ := hn
      cases hx : add_effects_of x with
      | none => simp [hx] at h
      | some a =>
          cases hr : add_effects_list rest with
          | none => simp [hx, hr] at h
          | some b =>
              simp [hx, hr] at h
              obtain ⟨ha, hb⟩ := append_eq_nil_el a b h
              subst ha; subst hb
              have ih1 := p3_effects_nil x hn1 hx
              have ih2 := p3_list rest hn2 hr
              rw [show mhse_list (.cons x rest)
                  = (may_have_side_effects x).bind
                      (fun b => if b then some true else mhse_list rest) from rfl, ih1, ih2]
              rfl

theorem p3_elems (l : OESList) (hn : ndi_elems l = true)
    (h : add_effects_elems l = some .nil) : mhse_elems l = some false := by
  cases l with
  | nil => rfl
  | cons elem rest =>
      cases elem with
      | none =>
          rw [add_effects_elems] at h
          rw [ndi_elems] at hn
          exact p3_elems rest hn h
      | some eos =>
          cases eos with
          | mk sp ex =>
              rw [add_effects_elems] at h
              simp only [ndi_elems, Bool.and_eq_true] at hn
              obtain ⟨hn1, hn2⟩ := hn
              cases hx : add_effects_of ex with
              | none => simp [hx] at h
              | some a =>
                  cases hr : add_effects_elems rest with
                  | none => simp [hx, hr] at h
                  | some b =>
                      simp [hx, hr] at h
                      obtain ⟨ha, hb⟩ := append_eq_nil_el a b h
                      subst ha; subst hb
                      have ih1 := p3_effects_nil ex hn1 hx
                      have ih2 := p3_elems rest hn2 hr
                      rw [show mhse_elems (.cons (some (.mk sp ex)) rest)
                          = (may_have_side_effects ex).bind
                              (fun b => if b then some true else mhse_elems rest) from rfl,
                        ih1, ih2]
                      rfl

theorem p3_props (ps : PropsList) (hn : ndi_props ps = true)
    (h : add_effects_props ps = some .nil) : mhse_props ps = some false := by
  cases ps with
  | nil => rfl
  | cons p rest =>
      rw [add_effects_props] at h
      simp only [ndi_props, Bool.and_eq_true] at hn
      obtain ⟨hn1, hn2⟩ := hn
      cases hp : add_effects_prop p with
      | none => simp [hp] at h
      | some a =>
          cases hr : add_effects_props rest with
          | none => simp [hp, hr] at h
          | some b =>
              simp [hp, hr] at h
              obtain ⟨ha, hb⟩ := append_eq_nil_el a b h
              subst ha; subst hb
              have ih1 := p3_prop p hn1 hp
              have ih2 := p3_props rest hn2 hr
              rw [show mhse_props (.cons p rest)
                  = (mhse_prop p).bind
                      (fun b => if b then some true else mhse_props rest) from rfl, ih1, ih2]
              rfl

theorem p3_prop (p : PropOrSpread) (hn : ndi_prop p = true)
    (h : add_effects_prop p = some .nil) : mhse_prop p = some false := by
  cases p with
  | spreadProp ex =>
      rw [add_effects_prop] at h
      rw [ndi_prop] at hn
      exact p3_effects_nil ex hn h
  | prop jp =>
      cases jp with
      | shorthand s => rfl
      | assignProp s v => rw [add_effects_prop] at h; exact Option.noConfusion h
      | getter key => rw [ndi_prop] at hn; exact Bool.noConfusion hn
      | setter key => rw [ndi_prop] at hn; exact Bool.noConfusion hn
      | method key => rw [ndi_prop] at hn; exact Bool.noConfusion hn
      | keyValue key value =>
          rw [add_effects_prop] at h
          simp only [ndi_prop, Bool.and_eq_true] at hn
          obtain ⟨hn1, hn2⟩ := hn
          cases hk : add_effects_key key with
          | none => simp [hk] at h
          | some a =>
              cases hv : add_effects_of value with
              | none => simp [hk, hv] at h
              | some b =>
                  simp [hk, hv] at h
                  obtain ⟨ha, hb⟩ := append_eq_nil_el a b h
                  subst ha; subst hb
                  have ih1 := p3_key key hn1 hk
                  have ih2 := p3_effects_nil value hn2 hv
                  rw [show mhse_prop (.prop (.keyValue key value))
                      = (mhse_key key).bind
                          (fun k => if k then some true else may_have_side_effects value)
                        from rfl, ih1, ih2]
                  rfl

theorem p3_key (k : PropName) (hn : ndi_key k = true)
    (h : add_effects_key k = some .nil) : mhse_key k = some false := by
  cases k with
  | computed ex =>
      rw [add_effects_key] at h
      rw [ndi_key] at hn
      exact p3_effects_nil ex hn h
  | ident s => rfl
  | str s => rfl
  | num n => rfl

end

mutual

theorem c2_sound (e : Expr) (hn : no_drop_impure e = true) :
    (ignore_result e = some none → may_have_side_effects e = some false)
      ∧ (∀ x', ignore_result e = some (some x') → add_effects_of x' = some .nil →
          may_have_side_effects e = some false) := by
  cases e with
  | lit l => exact ⟨fun _ => rfl, fun _ _ _ => rfl⟩
  | ident s => exact ⟨fun _ => mhse_ident_false s, fun _ _ _ => mhse_ident_false s⟩
  | this => exact ⟨fun _ => rfl, fun _ _ _ => rfl⟩
  | arrow => exact ⟨fun _ => rfl, fun _ _ _ => rfl⟩
  | privateName s => exact ⟨fun _ => rfl, fun _ _ _ => rfl⟩
  | fn b => exact ⟨fun _ => mhse_fn_false b, fun _ _ _ => mhse_fn_false b⟩
  | update op pre arg =>
      refine ⟨fun h => ?_, fun x' h h2 => ?_⟩
      · rw [show ignore_result (.update op pre arg) = some (some (.update op pre arg))
            from rfl] at h
        injection h with h3; exact Option.noConfusion h3
      · rw [show ignore_result (.update op pre arg) = some (some (.update op pre arg))
            from rfl] at h
        injection h with h3; injection h3 with h4
        subst h4
        exact p3_effects_nil _ hn h2
  | assign op l r =>
      refine ⟨fun h => ?_, fun x' h h2 => ?_⟩
      · rw [show ignore_result (.assign op l r) = some (some (.assign op l r)) from rfl] at h
        injection h with h3; exact Option.noConfusion h3
      · rw [show ignore_result (.assign op l r) = some (some (.assign op l r)) from rfl] at h
        injection h with h3; injection h3 with h4
        subst h4
        exact p3_effects_nil _ hn h2
  | member o p cc =>
      refine ⟨fun h => ?_, fun x' h h2 => ?_⟩
      · rw [show ignore_result (.member o p cc) = some (some (.member o p cc)) from rfl] at h
        injection h with h3; exact Option.noConfusion h3
      · rw [show ignore_result (.member o p cc) = some (some (.member o p cc)) from rfl] at h
        injection h with h3; injection h3 with h4
        subst h4
        exact p3_effects_nil _ hn h2
  | cond t c a =>
      refine ⟨fun h => ?_, fun x' h h2 => ?_⟩
      · rw [show ignore_result (.cond t c a) = some (some (.cond t c a)) from rfl] at h
        injection h with h3; exact Option.noConfusion h3
      · rw [show ignore_result (.cond t c a) = some (some (.cond t c a)) from rfl] at h
        injection h with h3; injection h3 with h4
        subst h4
        exact p3_effects_nil _ hn h2
  | newE callee args =>
      refine ⟨fun h => ?_, fun x' h h2 => ?_⟩
      · rw [show ignore_result (.newE callee args) = some (some (.newE callee args))
            from rfl] at h
        injection h with h3; exact Option.noConfusion h3
      · rw [show ignore_result (.newE callee args) = some (some (.newE callee args))
            from rfl] at h
        injection h with h3; injection h3 with h4
        subst h4
        exact p3_effects_nil _ hn h2
  | yieldE a =>
      refine ⟨fun h => ?_, fun x' h h2 => ?_⟩
      · rw [show ignore_result (.yieldE a) = some (some (.yieldE a)) from rfl] at h
        injection h with h3; exact Option.noConfusion h3
      · rw [show ignore_result (.yieldE a) = some (some (.yieldE a)) from rfl] at h
        injection h with h3; injection h3 with h4
        subst h4
        exact p3_effects_nil _ hn h2
  | awaitE a =>
      refine ⟨fun h => ?_, fun x' h h2 => ?_⟩
      · rw [show ignore_result (.awaitE a) = some (some (.awaitE a)) from rfl] at h
        injection h with h3; exact Option.noConfusion h3
      · rw [show ignore_result (.awaitE a) = some (some (.awaitE a)) from rfl] at h
        injection h with h3; injection h3 with h4
        subst h4
        exact p3_effects_nil _ hn h2
  | metaProp =>
      refine ⟨fun h => ?_, fun x' h h2 => ?_⟩
      · rw [show ignore_result .metaProp = some (some .metaProp) from rfl] at h
        injection h with h3; exact Option.noConfusion h3
      · rw [show ignore_result .metaProp = some (some .metaProp) from rfl] at h
        injection h with h3; injection h3 with h4
        subst h4
        exact p3_effects_nil _ hn h2
  | tpl exprs =>
      refine ⟨fun h => ?_, fun x' h h2 => ?_⟩
      · rw [show ignore_result (.tpl exprs) = some (some (.tpl exprs)) from rfl] at h
        injection h with h3; exact Option.noConfusion h3
      · rw [show ignore_result (.tpl exprs) = some (some (.tpl exprs)) from rfl] at h
        injection h with h3; injection h3 with h4
        subst h4
        exact p3_effects_nil _ hn h2
  | class_ =>
      refine ⟨fun h => ?_, fun x' h h2 => ?_⟩
      · rw [show ignore_result .class_ = some (some .class_) from rfl] at h
        injection h with h3; exact Option.noConfusion h3
      · rw [show ignore_result .class_ = some (some .class_) from rfl] at h
        injection h with h3; injection h3 with h4
        subst h4
        exact p3_effects_nil _ hn h2
  | jsxMember =>
      refine ⟨fun h => ?_, fun x' h h2 => ?_⟩
      · rw [show ignore_result .jsxMember = some (some .jsxMember) from rfl] at h
        injection h with h3; exact Option.noConfusion h3
      · rw [show ignore_result .jsxMember = some (some .jsxMember) from rfl] at h
        injection h with h3; injection h3 with h4
        subst h4
        exact p3_effects_nil _ hn h2
  | jsxNamespacedName =>
      refine ⟨fun h => ?_, fun x' h h2 => ?_⟩
      · rw [show ignore_result .jsxNamespacedName = some (some .jsxNamespacedName)
            from rfl] at h
        injection h with h3; exact Option.noConfusion h3
      · rw [show ignore_result .jsxNamespacedName = some (some .jsxNamespacedName)
            from rfl] at h
        injection h with h3; injection h3 with h4
        subst h4
        exact p3_effects_nil _ hn h2
  | jsxEmpty =>
      refine ⟨fun h => ?_, fun x' h h2 => ?_⟩
      · rw [show ignore_result .jsxEmpty = some (some .jsxEmpty) from rfl] at h
        injection h with h3; exact Option.noConfusion h3
      · rw [show ignore_result .jsxEmpty = some (some .jsxEmpty) from rfl] at h
        injection h with h3; injection h3 with h4
        subst h4
        exact p3_effects_nil _ hn h2
  | jsxElement =>
      refine ⟨fun h => ?_, fun x' h h2 => ?_⟩
      · rw [show ignore_result .jsxElement = some (some .jsxElement) from rfl] at h
        injection h with h3; exact Option.noConfusion h3
      · rw [show ignore_result .jsxElement = some (some .jsxElement) from rfl] at h
        injection h with h3; injection h3 with h4
        subst h4
        exact p3_effects_nil _ hn h2
  | jsxFragment =>
      refine ⟨fun h => ?_, fun x' h h2 => ?_⟩
      · rw [show ignore_result .jsxFragment = some (some .jsxFragment) from rfl] at h
        injection h with h3; exact Option.noConfusion h3
      · rw [show ignore_result .jsxFragment = some (some .jsxFragment) from rfl] at h
        injection h with h3; injection h3 with h4
        subst h4
        exact p3_effects_nil _ hn h2
  | invalid =>
      refine ⟨fun h => ?_, fun x' h h2 => ?_⟩
      · rw [show ignore_result .invalid = some (some .invalid) from rfl] at h
        injection h with h3; exact Option.noConfusion h3
      · rw [show ignore_result .invalid = some (some .invalid) from rfl] at h
        injection h with h3; injection h3 with h4
        subst h4
        exact p3_effects_nil _ hn h2
  | tsTypeAssertion inner =>
      refine ⟨fun h => ?_, fun x' h h2 => ?_⟩
      · rw [show ignore_result (.tsTypeAssertion inner) = some (some (.tsTypeAssertion inner))
            from rfl] at h
        injection h with h3; exact Option.noConfusion h3
      · rw [show ignore_result (.tsTypeAssertion inner) = some (some (.tsTypeAssertion inner))
            from rfl] at h
        injection h with h3; injection h3 with h4
        subst h4
        exact p3_effects_nil _ hn h2
  | tsConstAssertion inner => exact ⟨fun _ => rfl, fun _ _ _ => rfl⟩
  | tsNonNull inner =>
      refine ⟨fun h => ?_, fun x' h h2 => ?_⟩
      · rw [show ignore_result (.tsNonNull inner) = some (some (.tsNonNull inner))
            from rfl] at h
        injection h with h3; exact Option.noConfusion h3
      · rw [show ignore_result (.tsNonNull inner) = some (some (.tsNonNull inner))
            from rfl] at h
        injection h with h3; injection h3 with h4
        subst h4
        exact p3_effects_nil _ hn h2
  | tsTypeCast inner =>
      refine ⟨fun h => ?_, fun x' h h2 => ?_⟩
      · rw [show ignore_result (.tsTypeCast inner) = some (some (.tsTypeCast inner))
            from rfl] at h
        injection h with h3; exact Option.noConfusion h3
      · rw [show ignore_result (.tsTypeCast inner) = some (some (.tsTypeCast inner))
            from rfl] at h
        injection h with h3; injection h3 with h4
        subst h4
        exact p3_effects_nil _ hn h2
  | tsAs inner =>
      refine ⟨fun h => ?_, fun x' h h2 => ?_⟩
      · rw [show ignore_result (.tsAs inner) = some (some (.tsAs inner)) from rfl] at h
        injection h with h3; exact Option.noConfusion h3
      · rw [show ignore_result (.tsAs inner) = some (some (.tsAs inner)) from rfl] at h
        injection h with h3; injection h3 with h4
        subst h4
        exact p3_effects_nil _ hn h2
  | tsOptChain inner =>
      refine ⟨fun h => ?_, fun x' h h2 => ?_⟩
      · rw [show ignore_result (.tsOptChain inner) = some (some (.tsOptChain inner))
            from rfl] at h
        injection h with h3; exact Option.noConfusion h3
      · rw [show ignore_result (.tsOptChain inner) = some (some (.tsOptChain inner))
            from rfl] at h
        injection h with h3; injection h3 with h4
        subst h4
        exact p3_effects_nil _ hn h2
  | paren inner =>
      rw [no_drop_impure] at hn
      have ih := c2_sound inner hn
      refine ⟨fun h => ?_, fun x' h h2 => ?_⟩
      · rw [ignore_result] at h
        exact ih.1 h
      · rw [ignore_result] at h
        exact ih.2 x' h h2
  | unary op arg =>
      rw [no_drop_impure] at hn
      cases op with
      | voidOp =>
          have ih := c2_sound arg hn
          exact ⟨fun h => ih.1 h, fun x' h h2 => ih.2 x' h h2⟩
      | typeofOp =>
          have ih := c2_sound arg hn
          exact ⟨fun h => ih.1 h, fun x' h h2 => ih.2 x' h h2⟩
      | plus =>
          have ih := c2_sound arg hn
          exact ⟨fun h => ih.1 h, fun x' h h2 => ih.2 x' h h2⟩
      | minus =>
          have ih := c2_sound arg hn
          exact ⟨fun h => ih.1 h, fun x' h h2 => ih.2 x' h h2⟩
      | bang =>
          have ih := c2_sound arg hn
          exact ⟨fun h => ih.1 h, fun x' h h2 => ih.2 x' h h2⟩
      | tilde =>
          have ih := c2_sound arg hn
          exact ⟨fun h => ih.1 h, fun x' h h2 => ih.2 x' h h2⟩
      | deleteOp =>
          refine ⟨fun h => ?_, fun x' h h2 => ?_⟩
          · rw [show ignore_result (.unary .deleteOp arg)
                = some (some (.unary .deleteOp arg)) from rfl] at h
            injection h with h3; exact Option.noConfusion h3
          · rw [show ignore_result (.unary .deleteOp arg)
                = some (some (.unary .deleteOp arg)) from rfl] at h
            injection h with h3; injection h3 with h4
            subst h4
            exact p3_effects_nil _ hn h2
  | bin op l r =>
      simp only [no_drop_impure, Bool.and_eq_true] at hn
      obtain ⟨hn1, hn2⟩ := hn
      have hnb : no_drop_impure (.bin op l r) = true := by
        simp [no_drop_impure, hn1, hn2]
      by_cases hop : op = BinOp.logAnd ∨ op = BinOp.logOr
      · refine ⟨fun h => ?_, fun x' h h2 => ?_⟩
        · rw [ignore_result, if_pos hop] at h
          injection h with h3; exact Option.noConfusion h3
        · rw [ignore_result, if_pos hop] at h
          injection h with h3; injection h3 with h4
          subst h4
          exact p3_effects_nil _ hnb h2
      · have ihl := c2_sound l hn1
        have ihr := c2_sound r hn2
        refine ⟨fun h => ?_, fun x' h h2 => ?_⟩
        · rw [ignore_result, if_neg hop] at h
          cases hl : ignore_result l with
          | none => simp [hl] at h
          | some lo =>
              cases hr : ignore_result r with
              | none => simp [hl, hr] at h
              | some ro =>
                  simp only [hl, hr] at h
                  cases lo with
                  | none =>
                      cases ro with
                      | none =>
                          have ih1 := ihl.1 hl
                          have ih2 := ihr.1 hr
                          rw [show may_have_side_effects (.bin op l r)
                              = (may_have_side_effects l).bind
                                  (fun lb => if lb then some true
                                    else may_have_side_effects r) from rfl, ih1, ih2]
                          rfl
                      | some r' => simp at h
                  | some l' =>
                      cases ro with
                      | none => simp at h
                      | some r' =>
                          rw [show (match (some l' : Option Expr), (some r' : Option Expr) with
                              | some l'', some r'' =>
                                  ignore_effects (.cons l'' (.cons r'' .nil))
                              | some l'', none => some (some l'')
                              | none, some r'' => some (some r'')
                              | none, none => some none)
                              = ignore_effects (.cons l' (.cons r' .nil)) from rfl] at h
                          rw [ignore_effects] at h
                          cases hadd : add_effects_list (.cons l' (.cons r' .nil)) with
                          | none => simp [hadd] at h
                          | some es =>
                              cases es with
                              | nil =>
                                  -- both effect lists empty
                                  rw [add_effects_list] at hadd
                                  cases hal : add_effects_of l' with
                                  | none => simp [hal] at hadd
                                  | some a =>
                                      cases har : add_effects_list (.cons r' .nil) with
                                      | none => simp [hal, har] at hadd
                                      | some b =>
                                          simp [hal, har] at hadd
                                          obtain ⟨ha, hb⟩ := append_eq_nil_el a b hadd
                                          subst ha; subst hb
                                          rw [add_effects_list] at har
                                          cases har2 : add_effects_of r' with
                                          | none => simp [har2] at har
                                          | some c =>
                                              simp [har2,
                                                show add_effects_list ExprList.nil
                                                  = some ExprList.nil from rfl,
                                                append_nil_el] at har
                                              subst har
                                              have ih1 := ihl.2 l' hl hal
                                              have ih2 := ihr.2 r' hr har2
                                              rw [show may_have_side_effects (.bin op l r)
                                                  = (may_have_side_effects l).bind
                                                      (fun lb => if lb then some true
                                                        else may_have_side_effects r)
                                                  from rfl, ih1, ih2]
                                              rfl
                              | cons f fs => simp [hadd] at h
        · rw [ignore_result, if_neg hop] at h
          cases hl : ignore_result l with
          | none => simp [hl] at h
          | some lo =>
              cases hr : ignore_result r with
              | none => simp [hl, hr] at h
              | some ro =>
                  simp only [hl, hr] at h
                  cases lo with
                  | none =>
                      cases ro with
                      | none => simp at h
                      | some r' =>
                          simp at h
                          subst h
                          have ih1 := ihl.1 hl
                          have ih2 := ihr.2 r' hr h2
                          rw [show may_have_side_effects (.bin op l r)
                              = (may_have_side_effects l).bind
                                  (fun lb => if lb then some true
                                    else may_have_side_effects r) from rfl, ih1, ih2]
                          rfl
                  | some l' =>
                      cases ro with
                      | none =>
                          simp at h
                          subst h
                          have ih1 := ihl.2 l' hl h2
                          have ih2 := ihr.1 hr
                          rw [show may_have_side_effects (.bin op l r)
                              = (may_have_side_effects l).bind
                                  (fun lb => if lb then some true
                                    else may_have_side_effects r) from rfl, ih1, ih2]
                          rfl
                      | some r' =>
                          rw [show (match (some l' : Option Expr), (some r' : Option Expr) with
                              | some l'', some r'' =>
                                  ignore_effects (.cons l'' (.cons r'' .nil))
                              | some l'', none => some (some l'')
                              | none, some r'' => some (some r'')
                              | none, none => some none)
                              = ignore_effects (.cons l' (.cons r' .nil)) from rfl] at h
                          rw [ignore_effects] at h
                          cases hadd : add_effects_list (.cons l' (.cons r' .nil)) with
                          | none => simp [hadd] at h
                          | some es =>
                              cases es with
                              | nil => simp [hadd] at h
                              | cons f fs =>
                                  simp [hadd] at h
                                  subst h
                                  rw [add_effects_of] at h2
                                  have hflat := effects_flat_list _ _ hadd
                                  rw [h2] at hflat
                                  injection hflat with h5
                                  exact ExprList.noConfusion h5
  | seq exprs =>
      rw [no_drop_impure] at hn
      cases exprs with
      | nil => exact ⟨fun _ => rfl, fun x' h _ => by
          rw [show ignore_result (Expr.seq .nil) = some none from rfl] at h
          injection h with h3; exact Option.noConfusion h3⟩
      | cons x rest =>
          refine ⟨fun h => ?_, fun x' h h2 => ?_⟩
          · rw [ignore_result] at h
            cases hlast : ir_last (.cons x rest) with
            | none => simp [hlast] at h
            | some out => simp [hlast] at h
          · rw [ignore_result] at h
            cases hlast : ir_last (.cons x rest) with
            | none => simp [hlast] at h
            | some out =>
                simp [hlast] at h
                subst h
                rw [add_effects_of] at h2
                exact c2_sound_last (.cons x rest) hn out hlast h2
  | object props =>
      rw [no_drop_impure] at hn
      cases props with
      | nil => exact ⟨fun _ => rfl, fun x' h _ => by
          rw [show ignore_result (Expr.object .nil) = some none from rfl] at h
          injection h with h3; exact Option.noConfusion h3⟩
      | cons p rest =>
          refine ⟨fun h => ?_, fun x' h h2 => ?_⟩
          · rw [show ignore_result (.object (.cons p rest))
                = some (some (.object (.cons p rest))) from rfl] at h
            injection h with h3; exact Option.noConfusion h3
          · rw [show ignore_result (.object (.cons p rest))
                = some (some (.object (.cons p rest))) from rfl] at h
            injection h with h3; injection h3 with h4
            subst h4
            exact p3_effects_nil (.object (.cons p rest)) (by rw [no_drop_impure]; exact hn) h2
  | array elems =>
      rw [no_drop_impure] at hn
      refine ⟨fun h => ?_, fun x' h h2 => ?_⟩
      · rw [ignore_result] at h
        cases he : ir_elems elems with
        | none => simp [he] at h
        | some kept =>
            cases kept with
            | nil => exact c2_sound_elems elems hn .nil he rfl
            | cons k ks => simp [he] at h
      · rw [ignore_result] at h
        cases he : ir_elems elems with
        | none => simp [he] at h
        | some kept =>
            cases kept with
            | nil => simp [he] at h
            | cons k ks =>
                simp [he] at h
                subst h
                rw [add_effects_of] at h2
                exact c2_sound_elems elems hn (.cons k ks) he h2
  | call callee args =>
      cases callee with
      | superOS =>
          refine ⟨fun h => ?_, fun x' h h2 => ?_⟩
          · rw [show ignore_result (.call .superOS args) = some (some (.call .superOS args))
                from rfl] at h
            injection h with h3; exact Option.noConfusion h3
          · rw [show ignore_result (.call .superOS args) = some (some (.call .superOS args))
                from rfl] at h
            injection h with h3; injection h3 with h4
            subst h4
            exact p3_effects_nil _ hn h2
      | exprOS c =>
          by_cases hp : is_pure_callee c = true
          · have hm : may_have_side_effects (.call (.exprOS c) args) = some false := by
              rw [show may_have_side_effects (.call (.exprOS c) args)
                  = (if is_pure_callee c then some false else some true) from rfl, hp]
              rfl
            exact ⟨fun _ => hm, fun _ _ _ => hm⟩
          · have hp' : is_pure_callee c = false := by
              cases hcc : is_pure_callee c
              · rfl
              · exact absurd hcc hp
            refine ⟨fun h => ?_, fun x' h h2 => ?_⟩
            · rw [ignore_result, hp'] at h
              simp at h
            · rw [ignore_result, hp'] at h
              simp at h
              subst h
              exact p3_effects_nil _ hn h2
  | taggedTpl tag exprs =>
      simp only [no_drop_impure, Bool.and_eq_true] at hn
      obtain ⟨⟨hp, hn1⟩, hn2⟩ := hn
      have hp' : is_pure_callee tag = false := by
        cases hcc : is_pure_callee tag
        · rfl
        · rw [hcc] at hp; exact Bool.noConfusion hp
      have hnt : no_drop_impure (.taggedTpl tag exprs) = true := by
        simp [no_drop_impure, hp', hn1, hn2]
      refine ⟨fun h => ?_, fun x' h h2 => ?_⟩
      · rw [ignore_result, hp'] at h
        simp at h
      · rw [ignore_result, hp'] at h
        simp at h
        subst h
        exact p3_effects_nil _ hnt h2

theorem c2_sound_elems (l : OESList) (hn : ndi_elems l = true) :
    ∀ l', ir_elems l = some l' → add_effects_elems l' = some .nil →
      mhse_elems l = some false := by
  cases l with
  | nil => exact fun l' _ _ => rfl
  | cons elem rest =>
      cases elem with
      | none =>
          rw [ndi_elems] at hn
          exact fun l' h h2 => c2_sound_elems rest hn l' h h2
      | some eos =>
          cases eos with
          | mk sp ex =>
              simp only [ndi_elems, Bool.and_eq_true] at hn
              obtain ⟨hn1, hn2⟩ := hn
              intro l' h h2
              cases sp with
              | true =>
                  rw [ir_elems] at h
                  cases hr : ir_elems rest with
                  | none => simp [hr] at h
                  | some out =>
                      simp [hr] at h
                      subst h
                      rw [add_effects_elems] at h2
                      cases hx : add_effects_of ex with
                      | none => simp [hx] at h2
                      | some a =>
                          cases ho : add_effects_elems out with
                          | none => simp [hx, ho] at h2
                          | some b =>
                              simp [hx, ho] at h2
                              obtain ⟨ha, hb⟩ := append_eq_nil_el a b h2
                              subst ha; subst hb
                              have ih1 := p3_effects_nil ex hn1 hx
                              have ih2 := c2_sound_elems rest hn2 out hr ho
                              rw [show mhse_elems (.cons (some (.mk true ex)) rest)
                                  = (may_have_side_effects ex).bind
                                      (fun b => if b then some true else mhse_elems rest)
                                  from rfl, ih1, ih2]
                              rfl
              | false =>
                  rw [ir_elems] at h
                  cases hx : ignore_result ex with
                  | none => simp [hx] at h
                  | some xo =>
                      cases xo with
                      | none =>
                          simp [hx] at h
                          have ih1 := (c2_sound ex hn1).1 hx
                          have ih2 := c2_sound_elems rest hn2 l' h h2
                          rw [show mhse_elems (.cons (some (.mk false ex)) rest)
                              = (may_have_side_effects ex).bind
                                  (fun b => if b then some true else mhse_elems rest)
                              from rfl, ih1, ih2]
                          rfl
                      | some ex' =>
                          simp only [hx] at h
                          cases hr : ir_elems rest with
                          | none => simp [hr] at h
                          | some out =>
                              simp [hr] at h
                              subst h
                              rw [add_effects_elems] at h2
                              cases hxe : add_effects_of ex' with
                              | none => simp [hxe] at h2
                              | some a =>
                                  cases ho : add_effects_elems out with
                                  | none => simp [hxe, ho] at h2
                                  | some b =>
                                      simp [hxe, ho] at h2
                                      obtain ⟨ha, hb⟩ := append_eq_nil_el a b h2
                                      subst ha; subst hb
                                      have ih1 := (c2_sound ex hn1).2 ex' hx hxe
                                      have ih2 := c2_sound_elems rest hn2 out hr ho
                                      rw [show mhse_elems (.cons (some (.mk false ex)) rest)
                                          = (may_have_side_effects ex).bind
                                              (fun b => if b then some true
                                                else mhse_elems rest) from rfl, ih1, ih2]
                                      rfl

theorem c2_sound_last (l : ExprList) (hn : ndi_list l = true) :
    ∀ out, ir_last l = some out → add_effects_list out = some .nil →
      mhse_list l = some false := by
  cases l with
  | nil => exact fun out _ _ => rfl
  | cons x rest =>
      cases rest with
      | nil =>
          simp only [ndi_list, Bool.and_eq_true] at hn
          obtain ⟨hn1, _⟩ := hn
          intro out h h2
          rw [ir_last] at h
          cases hx : ignore_result x with
          | none => simp [hx] at h
          | some xo =>
              cases xo with
              | none =>
                  have ih1 := (c2_sound x hn1).1 hx
                  rw [show mhse_list (.cons x .nil)
                      = (may_have_side_effects x).bind
                          (fun b => if b then some true else mhse_list .nil) from rfl, ih1]
                  rfl
              | some x' =>
                  simp [hx] at h
                  subst h
                  rw [add_effects_list] at h2
                  cases hxe : add_effects_of x' with
                  | none => simp [hxe] at h2
                  | some a =>
                      simp [hxe,
                        show add_effects_list ExprList.nil = some ExprList.nil from rfl,
                        append_nil_el] at h2
                      subst h2
                      have ih1 := (c2_sound x hn1).2 x' hx hxe
                      rw [show mhse_list (.cons x .nil)
                          = (may_have_side_effects x).bind
                              (fun b => if b then some true else mhse_list .nil) from rfl, ih1]
                      rfl
      | cons y ys =>
          simp only [ndi_list, Bool.and_eq_true] at hn
          obtain ⟨hn1, hn2⟩ := hn
          intro out h h2
          rw [ir_last] at h
          · cases hrest : ir_last (.cons y ys) with
            | none => simp [hrest] at h
            | some out' =>
                simp [hrest] at h
                subst h
                rw [add_effects_list] at h2
                cases hx : add_effects_of x with
                | none => simp [hx] at h2
                | some a =>
                    cases ho : add_effects_list out' with
                    | none => simp [hx, ho] at h2
                    | some b =>
                        simp [hx, ho] at h2
                        obtain ⟨ha, hb⟩ := append_eq_nil_el a b h2
                        subst ha; subst hb
                        have ih1 := p3_effects_nil x hn1 hx
                        have ih2 := c2_sound_last (.cons y ys)
                          (by simp only [ndi_list, Bool.and_eq_true]; exact hn2) out' hrest ho
                        rw [show mhse_list (.cons x (.cons y ys))
                            = (may_have_side_effects x).bind
                                (fun b => if b then some true else mhse_list (.cons y ys))
                            from rfl, ih1, ih2]
                        rfl
          · exact fun hh => ExprList.noConfusion hh

end

theorem fold_stmts_cons_non_ctrl (t : Stmt) (X : StmtList) (u : Stmt)
    (hu : fold_stmt t = some u) (hnc : is_ctrl u = false) :
    fold_stmts (.cons t X)
      = match vec_emit u with
        | none => none
        | some none => fold_stmts X
        | some (some node) => (fold_stmts X).bind (fun out => some (.cons node out)) := by
  cases u with
  | throwS a => simp [is_ctrl] at hnc
  | ret a => simp [is_ctrl] at hnc
  | cont l => simp [is_ctrl] at hnc
  | brk l => simp [is_ctrl] at hnc
  | empty => simp [fold_stmts, hu, vec_emit]
  | ifS a b c =>
      cases hir : if_replace a b c with
      | none => simp [fold_stmts, hu, vec_emit, hir]
      | some node => simp [fold_stmts, hu, vec_emit, hir]
  | _ => simp [fold_stmts, hu, vec_emit]

/-! Claim theorems. -/

/-- C1: the lattice asserts `(Pure, Known(true))` — and `as_pure_bool`
asserts `Known(true)` — for the assignment `x = true`, an expression for
which `may_have_side_effects` returns `true`; so `as_bool` can report `Pure`
together with `Known` for an expression whose evaluation has observable side
effects, contradicting the claimed invariant (the `Assign` arm of `as_bool`
passes through to the right-hand side without accounting for the write). -/
theorem c1_assign_reported_pure_known :
    as_bool (.assign .assignEq (.pat (.ident "x")) (.lit (.bool true)))
        = some (.pure, .known true)
      ∧ as_pure_bool (.assign .assignEq (.pat (.ident "x")) (.lit (.bool true)))
        = some (.known true)
      ∧ may_have_side_effects (.assign .assignEq (.pat (.ident "x")) (.lit (.bool true)))
        = some true :=
  ⟨rfl, rfl, rfl⟩

/-- C4: with both operands pure and known, `as_bool` of `true | false`
returns `(Pure, Known(false))` — the boolean AND of the operands — where the
claim (and `Boolean(true | false)` in the language) requires the OR,
`Known(true)`; the source's pure branch applies `lv.and(rv)` for both `&`
and `|`. The second conjunct shows the `&` half behaves as claimed. -/
theorem c4_bitor_pure_branch_uses_and :
    as_bool (.bin .bitOr (.lit (.bool true)) (.lit (.bool false)))
        = some (.pure, .known false)
      ∧ as_bool (.bin .bitAnd (.lit (.bool true)) (.lit (.bool false)))
        = some (.pure, .known false) :=
  ⟨rfl, rfl⟩

/-- C6: `as_number` of the string literal `"0x10"` returns `Known(10)`, not
the claimed hexadecimal value 16 — the source parses `s[2..4]` as a decimal
`f64` — while the sign-prefixed hex forms do return `Unknown` as claimed. -/
theorem c6_hex_string_parsed_as_decimal :
    as_number (.lit (.str "0x10")) = some (.known (.val 10))
      ∧ as_number (.lit (.str "-0x10")) = some .unknown
      ∧ as_number (.lit (.str "+0X10")) = some .unknown := by
  refine ⟨by decide, by decide, by decide⟩

/-- C7: `as_string` of the two-element array literal `["a", "b"]` returns
`Known("ab,")`, not the claimed `Known("a,b")`: the loop pushes the element
text first and appends the comma after every non-first element. -/
theorem c7_array_join_comma_misplaced :
    as_string (.array (.cons (some (.mk false (.lit (.str "a"))))
        (.cons (some (.mk false (.lit (.str "b")))) .nil)))
      = some (.known "ab,") := rfl

/-- C5: folding the sequence expression `(1, 2)` applies `ignore_result` to
every element including the last, producing an empty sequence — the last
element, the sequence's value, is not preserved (the claim expects `(2)`). -/
theorem c5_seq_fold_drops_last_element :
    fold_seq (.cons (.lit (.num (.val 1))) (.cons (.lit (.num (.val 2))) .nil))
        = some .nil
      ∧ seq_flat_map (.cons (.lit (.num (.val 1))) (.cons (.lit (.num (.val 2))) .nil))
        = some .nil :=
  ⟨rfl, rfl⟩

/-- C3: the Simplifier is not idempotent. On `if (true) {} else {}` the first
application emits the replaced consequent — an empty statement — into the
output without reprocessing it, and the second application removes it: the
two outputs differ, so one application is not a fixed point. -/
theorem c3_remover_not_idempotent :
    fold_stmts c3_input = some (.cons .empty .nil)
      ∧ fold_stmts (.cons .empty .nil) = some .nil
      ∧ StmtList.cons Stmt.empty StmtList.nil ≠ StmtList.nil :=
  ⟨rfl, rfl, fun h => StmtList.noConfusion h⟩

/-- C8 counterexample: `ignore_result` of the string literal `"use strict"`
is `Some`, not the claimed `None` — string literals are not in the dropped
literal set (the source keeps them, e.g. directives). -/
theorem c8_string_literal_not_dropped :
    ignore_result (.lit (.str "use strict")) = some (some (.lit (.str "use strict")))
      ∧ (some (some (Expr.lit (.str "use strict"))) : Option (Option Expr)) ≠ some none :=
  ⟨rfl, fun h => Option.noConfusion (Option.some.inj h)⟩

/-- C8 amended: numeric, boolean and regex literals and identifiers reduce
to `None` (and an expression statement of a numeric literal is dropped from
a statement list), while string, null and bigint literals are returned
unchanged as `Some`. -/
theorem c8_literal_rules :
    (∀ n : JsNum, ignore_result (.lit (.num n)) = some none)
      ∧ (∀ b : Bool, ignore_result (.lit (.bool b)) = some none)
      ∧ ignore_result (.lit .regex) = some none
      ∧ (∀ s : String, ignore_result (.ident s) = some none)
      ∧ (∀ n : JsNum, fold_stmts (.cons (.exprS (.lit (.num n))) .nil) = some .nil)
      ∧ (∀ s : String, ignore_result (.lit (.str s)) = some (some (.lit (.str s))))
      ∧ ignore_result (.lit .null) = some (some (.lit .null))
      ∧ (∀ v : ℤ, ignore_result (.lit (.bigint v)) = some (some (.lit (.bigint v)))) :=
  ⟨fun _ => rfl, fun _ => rfl, rfl, fun _ => rfl, fun _ => rfl, fun _ => rfl, rfl, fun _ => rfl⟩

/-- C2 counterexample: the tagged template `` Math.log`` `` (pure tag, no
substitutions) has `ignore_result = None` — the engine deems it droppable —
yet `may_have_side_effects` returns `true`; the claimed implication fails. -/
theorem c2_pure_tag_template_dropped_but_impure :
    ignore_result (.taggedTpl (.member (.exprOS (.ident "Math")) (.ident "log") false) .nil)
        = some none
      ∧ may_have_side_effects
          (.taggedTpl (.member (.exprOS (.ident "Math")) (.ident "log") false) .nil)
        = some true :=
  ⟨rfl, rfl⟩

/-- C10: a call whose callee satisfies `is_pure_callee` is reported free of
side effects by `may_have_side_effects`, whatever its arguments — the call
arm tests only the callee. -/
theorem c10_pure_callee_call_pure (callee : Expr) (args : ESList)
    (h : is_pure_callee callee = true) :
    may_have_side_effects (.call (.exprOS callee) args) = some false := by
  have step : may_have_side_effects (.call (.exprOS callee) args)
      = if is_pure_callee callee then some false else some true := rfl
  rw [step, h]
  simp

/-- C10 witness: `Date(x = 1)` — the callee is the `Date` identifier and the
argument is an assignment with side effects — is still reported pure. -/
theorem c10_pure_callee_call_pure_witness :
    is_pure_callee (Expr.ident "Date") = true
      ∧ may_have_side_effects (.call (.exprOS (.ident "Date"))
          (.cons (.mk false (.assign .assignEq (.pat (.ident "x")) (.lit (.num (.val 1)))))
            .nil)) = some false :=
  ⟨rfl, c10_pure_callee_call_pure _ _ rfl⟩

/-- C9: in a folded statement list, let `s` be the first statement whose
folded form `s'` is a throw/return/continue/break (every earlier statement
folds to a non-control statement). Then the output is the processed prefix
followed by `s'`, and nothing that follows `s` in the input contributes to
the output: everything after the first unconditional control transfer is
absent. -/
theorem c9_ctrl_transfer_truncates (pre : StmtList) (s : Stmt) (post : StmtList)
    (pl : StmtList) (s' : Stmt)
    (h1 : fold_stmts pre = some pl) (h2 : folds_non_ctrl pre = true)
    (hs : fold_stmt s = some s') (hc : is_ctrl s' = true) :
    fold_stmts (pre.append (.cons s post)) = some (pl.append (.cons s' .nil)) := by
  cases pre with
  | nil =>
      have hpl : StmtList.nil = pl := by
        have h1' := h1
        rw [show fold_stmts .nil = some .nil from rfl] at h1'
        exact Option.some.inj h1'
      subst hpl
      show fold_stmts (.cons s post) = some (.cons s' .nil)
      cases s' with
      | throwS a => simp [fold_stmts, hs]
      | ret a => simp [fold_stmts, hs]
      | cont l => simp [fold_stmts, hs]
      | brk l => simp [fold_stmts, hs]
      | _ => simp [is_ctrl] at hc
  | cons t rest =>
      cases hu : fold_stmt t with
      | none =>
          simp only [folds_non_ctrl, hu] at h2
          exact Bool.noConfusion h2
      | some u =>
          simp only [folds_non_ctrl, hu] at h2
          have hnc : is_ctrl u = false := by
            cases hic : is_ctrl u
            · rfl
            · rw [hic] at h2; simp at h2
          have hrest : folds_non_ctrl rest = true := by
            rw [hnc] at h2; simpa using h2
          rw [show StmtList.append (.cons t rest) (.cons s post)
              = .cons t (rest.append (.cons s post)) from rfl]
          rw [fold_stmts_cons_non_ctrl t _ u hu hnc]
          rw [fold_stmts_cons_non_ctrl t rest u hu hnc] at h1
          cases hve : vec_emit u with
          | none =>
              simp only [hve] at h1
              exact Option.noConfusion h1
          | some o =>
              cases o with
              | none =>
                  simp only [hve] at h1 ⊢
                  exact c9_ctrl_transfer_truncates rest s post pl s' h1 hrest hs hc
              | some node =>
                  simp only [hve] at h1 ⊢
                  cases hr : fold_stmts rest with
                  | none =>
                      simp only [hr, Option.bind] at h1
                      exact Option.noConfusion h1
                  | some pl' =>
                      simp only [hr, Option.bind] at h1
                      have hpl : StmtList.cons node pl' = pl := Option.some.inj h1
                      subst hpl
                      rw [c9_ctrl_transfer_truncates rest s post pl' s' hr hrest hs hc]
                      rfl

/-- C9 witness: `1; return; x = 2;` folds to `return;` — the numeric-literal
statement is dropped as pure, the return survives, the assignment after it is
gone. -/
theorem c9_ctrl_transfer_truncates_witness :
    fold_stmts (.cons (.exprS (.lit (.num (.val 1)))) .nil) = some .nil
      ∧ folds_non_ctrl (.cons (.exprS (.lit (.num (.val 1)))) .nil) = true
      ∧ fold_stmt (.ret none) = some (.ret none)
      ∧ is_ctrl (.ret none) = true
      ∧ fold_stmts (StmtList.append (.cons (.exprS (.lit (.num (.val 1)))) .nil)
          (.cons (.ret none) (.cons (.exprS (.assign .assignEq (.pat (.ident "x"))
            (.lit (.num (.val 2))))) .nil)))
        = some (StmtList.append .nil (.cons (.ret none) .nil)) :=
  ⟨rfl, rfl, rfl, rfl,
    c9_ctrl_transfer_truncates _ _ _ _ _ rfl rfl rfl rfl⟩

/-- C2: amended soundness of effect-dropping. For every expression containing no
pure-tagged template literal, no getter/setter/method object property, and no
zero-argument `new Date`, if `ignore_result` returns `None` (the expression is
dropped entirely) then `may_have_side_effects` is `false`. The excluded forms are
exactly those where `ignore_result`/`add_effects` deliberately discard
subexpressions that `may_have_side_effects` conservatively reports as impure. -/
theorem c2_ignore_result_none_sound (e : Expr) (h1 : no_drop_impure e = true)
    (h2 : ignore_result e = some none) : may_have_side_effects e = some false :=
  (c2_sound e h1).1 h2

/-- Witness for C2 on the concrete expression `1 + true`. -/
theorem c2_ignore_result_none_sound_witness :
    no_drop_impure (.bin .add (.lit (.num (.val 1))) (.lit (.bool true))) = true
      ∧ ignore_result (.bin .add (.lit (.num (.val 1))) (.lit (.bool true))) = some none
      ∧ may_have_side_effects (.bin .add (.lit (.num (.val 1))) (.lit (.bool true)))
          = some false :=
  ⟨rfl, rfl, c2_ignore_result_none_sound _ rfl rfl⟩

end Swc
